import Mathlib

/-!
Shallow embedding of the icecream client's remote build driver
(`src/client/remote.cpp`) and proofs about it.

Strings from the C++ are modelled as `List Char`, the filesystem as a
partial map from paths to file data, and every external effect (message
channel sends and receives, `stat`, `access`, `fork`/`wait`, the local
daemon) as an explicit oracle parameter recording what the outside world
answered.  Each definition is a direct translation of the corresponding
function in `remote.cpp`; line numbers in the doc comments refer to that
file.
-/

abbrev Str := List Char

/-- File contents plus unix mode bits, as visible through the filesystem. -/
structure FileData where
  content : List Nat
  mode : Nat
deriving DecidableEq

/-- Filesystem model: a partial map from paths to file data. -/
def FS : Type := Str → Option FileData

/-- Write (create or replace) the file at path `p`. -/
def FS.write (fs : FS) (p : Str) (d : FileData) : FS :=
  fun q => if q = p then some d else fs q

/-- Model of `unlink(2)`: remove the file at `p` (no-op when absent). -/
def FS.erase (fs : FS) (p : Str) : FS :=
  fun q => if q = p then none else fs q

/-- Model of `rename(2)`: move the file at `a` to `b`.  When `a` is absent the
call fails and the filesystem is unchanged; `remote.cpp` ignores the return
value at every `rename` call site. -/
def fsRename (fs : FS) (a b : Str) : FS :=
  match fs a with
  | none => fs
  | some d => (fs.erase a).write b d

/-- Messages that can arrive from the compile server while receiving a file
(`receive_fd`, remote.cpp lines 314-355): a file chunk, the end marker, a
status text, or any other tag.  A `get_msg` timeout (null message) is
modelled by the incoming list running out. -/
inductive RMsg
  | chunk : List Nat → RMsg
  | endMsg : RMsg
  | statusText : RMsg
  | otherMsg : RMsg
deriving DecidableEq

/-- Translation of `receive_fd` (remote.cpp lines 314-355).  `msgs` is the
stream of messages the channel will deliver (exhaustion = null message =
network down), `wok k` tells whether the `k`-th `write` to the output
descriptor succeeds.  Errors carry the `client_error` number thrown at the
corresponding line: 19 network down, 23 remote status (`check_for_failure`),
20 unexpected message, 21 write error.  On success the accumulated bytes
written to the descriptor are returned. -/
def receive_fd (wok : Nat → Bool) : List RMsg → Nat → List Nat → Except Nat (List Nat)
  | [], _, _ => Except.error 19
  | RMsg.statusText :: _, _, _ => Except.error 23
  | RMsg.endMsg :: _, _, acc => Except.ok acc
  | RMsg.otherMsg :: _, _, _ => Except.error 20
  | RMsg.chunk d :: rest, k, acc =>
    if wok k = true then receive_fd wok rest (k + 1) (acc ++ d)
    else Except.error 21

/-- Suffix appended to the output path for the receive temp file
(remote.cpp line 359). -/
def iceTmpSfx : Str := "_icetmp".toList

/-- Model of `open(tmp, O_CREAT | O_TRUNC | O_WRONLY, 0666)`: an existing
file keeps its mode and is truncated, a fresh file is created with
mode `0666` (438). -/
def openCreateTrunc (fs : FS) (p : Str) : FS :=
  match fs p with
  | some d => fs.write p ⟨[], d.mode⟩
  | none => fs.write p ⟨[], 438⟩

/-- Translation of `receive_file` (remote.cpp lines 357-379).  Bytes are
written through the open descriptor into `<output>_icetmp`; on any failure
during the receive the temp file is unlinked and the error rethrown
(numbers 31 for the failed `open`, 30 for a failed `close`/`rename`, and the
`receive_fd` numbers).  On success the temp file is renamed onto the output
path. -/
def receive_file (fs : FS) (output_file : Str) (openOk : Bool) (msgs : List RMsg)
    (wok : Nat → Bool) (closeOk renameOk : Bool) : FS × Except Nat Unit :=
  let tmp := output_file ++ iceTmpSfx
  if openOk = false then (fs, Except.error 31)
  else
    let fs1 := openCreateTrunc fs tmp
    match receive_fd wok msgs 0 [] with
    | Except.error e => (fs1.erase tmp, Except.error e)
    | Except.ok data =>
      let fs2 := fs1.write tmp ⟨data, (fs1 tmp).elim 438 FileData.mode⟩
      if closeOk = true then
        if renameOk = true then (fsRename fs2 tmp output_file, Except.ok ())
        else (fs2.erase tmp, Except.error 30)
      else (fs2.erase tmp, Except.error 30)

/-- Lowercase hex digit, as produced by `sprintf("%02x", ...)`. -/
def hexDigit (n : Nat) : Char :=
  if n < 10 then Char.ofNat (48 + n) else Char.ofNat (87 + n)

/-- Two lowercase hex digits of one digest byte. -/
def hexByte (b : Nat) : Str :=
  [hexDigit (b / 16 % 16), hexDigit (b % 16)]

/-- The 32-character lowercase hex rendering of a 16-byte digest
(remote.cpp lines 649-659). -/
def digestHex (d : Nat → Nat) : Str :=
  ((List.range 16).map (fun i => hexByte (d i))).flatten

/-- Translation of `md5_for_file` (remote.cpp lines 622-661).  The MD5 core
(`md5_init`/`md5_append`/`md5_finish`) lives in the external `md5.h`, so it
is abstracted as a digest function `dg` from the file's bytes to the 16
digest bytes.  When the file cannot be opened the empty string is
returned. -/
def md5_for_file (dg : List Nat → Nat → Nat) (fs : FS) (file : Str) : Str :=
  match fs file with
  | none => []
  | some d => digestHex (dg d.content)

/-- Observable actions of the driver towards the local daemon, the remote
host, and its own subprocesses. -/
inductive DAct
  | sendCompileToDaemon
  | runBuildLocal
  | sendJobDone
  | dialRemote
  | sendEnvTransfer
  | sendEnd
  | sendVerifyEnv
  | sendBlacklist
deriving DecidableEq

/-- The loopback hostname checked by `maybe_build_local`. -/
def loopbackHost : Str := "127.0.0.1".toList

/-- Oracle for one `maybe_build_local` run: whether `ICECC_TEST_REMOTEBUILD`
is set in the environment, whether the two sends to the local daemon
succeed, and the exit code `build_local` produces. -/
structure LocalOracle where
  testRemoteSet : Bool
  sendCompileOk : Bool
  localExit : Int
  sendJobDoneOk : Bool
deriving DecidableEq

/-- Translation of `maybe_build_local` (remote.cpp lines 663-723).  The
result is the C++ `bool` return paired with the value the out-parameter
`ret` was set to (`none` when the function returned without touching it).
A failed write of the job to the daemon throws `client_error` 29; otherwise
the function runs `build_local`, sends the `JobDone(FROM_SUBMITTER)`
statistics message, and returns that send's success. -/
def maybe_build_local (hostname : Str) (port : Nat) (o : LocalOracle) :
    List DAct × Except Nat (Bool × Option Int) :=
  if hostname = loopbackHost then
    if o.testRemoteSet = true ∧ port ≠ 0 then ([], Except.ok (false, none))
    else if o.sendCompileOk = false then ([DAct.sendCompileToDaemon], Except.error 29)
    else ([DAct.sendCompileToDaemon, DAct.runBuildLocal, DAct.sendJobDone],
          Except.ok (o.sendJobDoneOk, some o.localExit))
  else ([], Except.ok (false, none))

/-- Translation of the caller's dispatch around `maybe_build_local`
(remote.cpp lines 791-801): when it returns `false` the driver dials the
remote host and runs `build_remote_int`, whose outcome is the oracle
`remoteResult`. -/
def dispatchSingle (hostname : Str) (port : Nat) (o : LocalOracle)
    (remoteResult : Except Nat Int) : List DAct × Except Nat Int :=
  match maybe_build_local hostname port o with
  | (acts, Except.error e) => (acts, Except.error e)
  | (acts, Except.ok (true, r)) => (acts, Except.ok (r.getD 0))
  | (acts, Except.ok (false, _)) => (acts ++ [DAct.dialRemote], remoteResult)

/-- Reply the remote gives to the `VerifyEnv` request: a `VerifyEnvResult`
with its `ok` flag, or some other message tag. -/
inductive VReply
  | verifyResult : Bool → VReply
  | otherReply : VReply
deriving DecidableEq

/-- Oracle for the environment transfer and verification phase of
`build_remote_int`. -/
structure EnvOracle where
  statOk : Bool
  sendEnvOk : Bool
  openEnvOk : Bool
  streamRes : Except Nat Unit
  sendEndOk : Bool
  proto31 : Bool
  verifySendOk : Bool
  reply : Option VReply

/-- Translation of the `if (!got_env) { ... }` block of `build_remote_int`
(remote.cpp lines 410-467): stat the version file (error 4), send
`EnvTransferMsg` (error 6), open the version file (error 5), stream it
(`write_server_cpp`, whose failure is the oracle `streamRes`), send `End`
(error 8); then, when the remote speaks protocol 31, send `VerifyEnv`
(error 22) and wait for the reply: a `VerifyEnvResult` with `ok == false`
sends `BlacklistHostEnv` to the local daemon and throws `client_error` 24,
any other reply throws 25. -/
def envPhase (gotEnv : Bool) (o : EnvOracle) : List DAct × Except Nat Unit :=
  if gotEnv = true then ([], Except.ok ())
  else if o.statOk = false then ([], Except.error 4)
  else if o.sendEnvOk = false then ([DAct.sendEnvTransfer], Except.error 6)
  else if o.openEnvOk = false then ([DAct.sendEnvTransfer], Except.error 5)
  else
    match o.streamRes with
    | Except.error e => ([DAct.sendEnvTransfer], Except.error e)
    | Except.ok () =>
      if o.sendEndOk = false then ([DAct.sendEnvTransfer, DAct.sendEnd], Except.error 8)
      else if o.proto31 = false then ([DAct.sendEnvTransfer, DAct.sendEnd], Except.ok ())
      else if o.verifySendOk = false then
        ([DAct.sendEnvTransfer, DAct.sendEnd, DAct.sendVerifyEnv], Except.error 22)
      else
        match o.reply with
        | some (VReply.verifyResult false) =>
          ([DAct.sendEnvTransfer, DAct.sendEnd, DAct.sendVerifyEnv, DAct.sendBlacklist],
           Except.error 24)
        | some (VReply.verifyResult true) =>
          ([DAct.sendEnvTransfer, DAct.sendEnd, DAct.sendVerifyEnv], Except.ok ())
        | _ => ([DAct.sendEnvTransfer, DAct.sendEnd, DAct.sendVerifyEnv], Except.error 25)

/-- Prefix of a path up to (excluding) its last dot, i.e.
`s.substr(0, s.find_last_of('.'))`; when there is no dot, `find_last_of`
returns `npos` and `substr` yields the whole string. -/
def upToLastDot (p : Str) : Str :=
  match p.reverse.dropWhile (fun c => ¬ (c = '.')) with
  | [] => p
  | _ :: r => r.reverse

/-- Path of the dwarf-fission sidecar derived from an output path:
`outputFile().substr(0, outputFile().find_last_of('.')) + ".dwo"`
(remote.cpp lines 596, 706, 929, ...). -/
def dwoOf (p : Str) : Str := upToLastDot p ++ ".dwo".toList

/-- Unlink an output file and, when dwarf fission is enabled, its `.dwo`
sidecar (the repeated pattern at remote.cpp lines 927-931, 956-960,
964-975). -/
def unlinkOut (dwarf : Bool) (fs : FS) (p : Str) : FS :=
  let fs1 := fs.erase p
  if dwarf = true then fs1.erase (dwoOf p) else fs1

/-- Suffix given to artifacts preserved after a replica divergence. -/
def caughtSfx : Str := ".caught".toList

/-- The renames performed when two replicas produced different md5 sums
(remote.cpp lines 944-950): slot-0 output to `<path>.caught`, the shared
preprocessed temp file to `<preproc>.caught`, and the `.dwo` sidecar
likewise when dwarf fission is enabled. -/
def renameCaught (dwarf : Bool) (out0 pp : Str) (fs : FS) : FS :=
  let fs1 := fsRename fs out0 (out0 ++ caughtSfx)
  let fs2 := fsRename fs1 pp (pp ++ caughtSfx)
  if dwarf = true then fsRename fs2 (dwoOf out0) (dwoOf out0 ++ caughtSfx) else fs2

/-- Translation of the reconciliation loop of `build_remote`
(remote.cpp lines 917-962), iterating over the replica slots `1..N-1`.
When slot 0 succeeded: a slot with the sentinel exit code 42 is skipped
(`continue`), a slot with a non-zero exit code unlinks the slot-0 output and
breaks with final exit −1, a slot whose md5 differs from slot 0's performs
the `.caught` renames and breaks with final exit −1, and an agreeing slot
has its output (and `.dwo`) unlinked.  When slot 0 failed, replica outputs
are unlinked unconditionally.  Returns the filesystem together with the
final value of `exit_codes[0]`. -/
def reconLoop (dg : List Nat → Nat → Nat) (dwarf : Bool) (outs : Nat → Str)
    (ec : Nat → Int) (pp : Str) (firstMd5 : Str) : List Nat → FS → FS × Int
  | [], fs => (fs, ec 0)
  | i :: rest, fs =>
    if ec 0 = 0 then
      if ec i = 42 then reconLoop dg dwarf outs ec pp firstMd5 rest fs
      else if ec i ≠ 0 then (unlinkOut dwarf fs (outs 0), -1)
      else if md5_for_file dg fs (outs i) ≠ firstMd5 then
        (renameCaught dwarf (outs 0) pp fs, -1)
      else reconLoop dg dwarf outs ec pp firstMd5 rest (unlinkOut dwarf fs (outs i))
    else reconLoop dg dwarf outs ec pp firstMd5 rest (unlinkOut dwarf fs (outs i))

/-- Translation of the reaping loop of `build_remote` (remote.cpp lines
897-912).  `reaps` lists, in `wait` order, the slot each reaped child
belonged to and `some code` for a normal exit or `none` for a
signal-terminated child; a signal sets the misc-error flag and breaks.
Returns the final `exit_codes` array (as a function) and the flag. -/
def reapLoop : List (Nat × Option Int) → (Nat → Int) → (Nat → Int) × Bool
  | [], ec => (ec, false)
  | (_, none) :: _, ec => (ec, true)
  | (slot, some c) :: rest, ec =>
    reapLoop rest (fun j => if j = slot then c else ec j)

/-- Initial `exit_codes` array: every slot starts at the sentinel 42
(remote.cpp lines 846-848). -/
def ec42 : Nat → Int := fun _ => 42

/-- Translation of the tail of `build_remote`'s replication branch
(remote.cpp lines 914-994): without a misc error, hash the slot-0 output
once and run the reconciliation loop, then unlink the preprocessed temp
file and return `exit_codes[0]`; with a misc error, unlink every replica
output (and `.dwo`), unlink the preprocessed temp file and throw
`client_error` 27. -/
def reconcile (dg : List Nat → Nat → Nat) (dwarf : Bool) (outs : Nat → Str)
    (ec : Nat → Int) (misc : Bool) (pp : Str) (n : Nat) (fs : FS) :
    FS × Except Nat Int :=
  if misc = false then
    let first := md5_for_file dg fs (outs 0)
    let r := reconLoop dg dwarf outs ec pp first (List.range' 1 (n - 1)) fs
    (r.1.erase pp, Except.ok r.2)
  else
    let fs1 := unlinkOut dwarf fs (outs 0)
    let fs2 := (List.range' 1 (n - 1)).foldl (fun a i => unlinkOut dwarf a (outs i)) fs1
    (fs2.erase pp, Except.error 27)

/-- Oracle for one run of `build_remote`'s replication branch: whether the
preprocessor fork succeeded and its exit status, whether the `GetCS` send to
the local daemon succeeded, whether all the `get_server` calls succeeded,
and the reaping outcomes of the forked replica children. -/
structure RepOracle where
  cppForkOk : Bool
  cppExit : Int
  sendGetcsOk : Bool
  getServersOk : Bool
  reaps : List (Nat × Option Int)

/-- Translation of the replication (`torepeat > 1`) branch of `build_remote`
(remote.cpp lines 802-995).  The children's builds are summarised by the
reap oracle, and `fs` is the parent's view of the filesystem when it starts
reconciling (all children have been reaped by then).  A failed preprocessor
fork unlinks the temp file and throws 10; a failing preprocessor unlinks it
and returns its exit status; a failed `GetCS` send throws `client_error`
with number 0 (`"Error 0 - asked for CS"`, line 836); a failed `get_server`
throws 1. -/
def buildRemoteRep (dg : List Nat → Nat → Nat) (dwarf : Bool) (outs : Nat → Str)
    (pp : Str) (n : Nat) (o : RepOracle) (fs : FS) : FS × Except Nat Int :=
  if o.cppForkOk = false then (fs.erase pp, Except.error 10)
  else if o.cppExit ≠ 0 then (fs.erase pp, Except.ok o.cppExit)
  else if o.sendGetcsOk = false then (fs, Except.error 0)
  else if o.getServersOk = false then (fs, Except.error 1)
  else
    let r := reapLoop o.reaps ec42
    reconcile dg dwarf outs r.1 r.2 pp n fs

/-- Oracle for the single-job (`torepeat == 1`) branch of `build_remote`:
whether the `GetCS` send succeeded, whether `get_server` returned a proper
`UseCS` reply, the assignment's hostname and port, the local-fallback
oracle, and the outcome `build_remote_int` would produce. -/
structure SingleOracle where
  sendGetcsOk : Bool
  useCsOk : Bool
  hostname : Str
  port : Nat
  lo : LocalOracle
  remoteResult : Except Nat Int

/-- Translation of the single-job branch of `build_remote` (remote.cpp
lines 765-801): a failed `GetCS` send throws `client_error` 24
(`"Error 24 - asked for CS"`, line 788), a bad scheduler reply throws 1
(`get_server`), and otherwise the job is dispatched through
`maybe_build_local` with `build_remote_int` as the fallback. -/
def build_remote_single (o : SingleOracle) : List DAct × Except Nat Int :=
  if o.sendGetcsOk = false then ([], Except.error 24)
  else if o.useCsOk = false then ([], Except.error 1)
  else dispatchSingle o.hostname o.port o.lo o.remoteResult

/-- Boolean prefix test on character lists (the comparison
`orig.substr(idx, len) == pat` positioned at the start). -/
def pfxOf : Str → Str → Bool
  | [], _ => true
  | _ :: _, [] => false
  | a :: as, b :: bs => if a = b then pfxOf as bs else false

/-- Boolean substring test: does `pat` occur somewhere in the string?
This is `find(pat) != npos` of `std::string`. -/
def hasSub (pat : Str) : Str → Bool
  | [] => pfxOf pat []
  | c :: s => pfxOf pat (c :: s) || hasSub pat s

/-- One `find` + `replace` step of the rewrite loops in `get_absfilename`
(remote.cpp lines 205-224): replace the first occurrence of `pat` by `rep`,
or report that there is none. -/
def replFirst (pat rep : Str) : Str → Option Str
  | [] => none
  | c :: s =>
    if pfxOf pat (c :: s) = true then some (rep ++ (c :: s).drop pat.length)
    else
      match replFirst pat rep s with
      | none => none
      | some t => some (c :: t)

/-- One of the `while (idx != string::npos)` rewrite loops of
`get_absfilename`, with explicit fuel.  Each successful step strictly
shortens the string (the replacement is shorter than the pattern), so fuel
equal to the string's length is always enough to reach the fixpoint; the
loop itself has no fuel in the C++. -/
def replLoopF (pat rep : Str) : Nat → Str → Str
  | 0, s => s
  | fuel + 1, s =>
    match replFirst pat rep s with
    | none => s
    | some t => replLoopF pat rep fuel t

/-- Pattern `"/.."` of the first rewrite loop. -/
def ddP : Str := ['/', '.', '.']

/-- Pattern `"/./"` of the second rewrite loop. -/
def dsP : Str := ['/', '.', '/']

/-- Pattern `"//"` of the third rewrite loop. -/
def ssP : Str := ['/', '/']

/-- Replacement `"/"` used by all three rewrite loops. -/
def slashS : Str := ['/']

/-- The `while (idx != npos)` loop for `"/.." → "/"` (remote.cpp lines
205-210); the string's length is always enough fuel. -/
def ddLoop (s : Str) : Str := replLoopF ddP slashS s.length s

/-- The `while (idx != npos)` loop for `"/./" → "/"` (remote.cpp lines
212-217). -/
def dsLoop (s : Str) : Str := replLoopF dsP slashS s.length s

/-- The `while (idx != npos)` loop for `"//" → "/"` (remote.cpp lines
219-224). -/
def ssLoop (s : Str) : Str := replLoopF ssP slashS s.length s

/-- Translation of `get_absfilename` (remote.cpp lines 184-227).  An empty
path is returned as is; a relative path gets the current working directory
(the `getcwd` result, here a parameter) and a `'/'` prepended; then the
rewrites `"/.." → "/"`, `"/./" → "/"` and `"//" → "/"` are each applied
until their pattern no longer occurs, in that order. -/
def get_absfilename (cwd f : Str) : Str :=
  if f = [] then f
  else ssLoop (dsLoop (ddLoop (if f.head? = some '/' then f else cwd ++ '/' :: f)))

/-- Tokenisation of the `$ICECC_VERSION` string performed by the
`find_first_not_of(',')` / `find_first_of(',')` loop of
`parse_icecc_version` (remote.cpp lines 86-106): maximal non-empty
comma-free chunks.  The fuel (the string length suffices, each round
consumes at least one character) makes the recursion structural. -/
def tokSplitF : Nat → Str → List Str
  | 0, _ => []
  | fuel + 1, s =>
    match s.dropWhile (fun c => c = ',') with
    | [] => []
    | c :: s2 =>
      (c :: s2.takeWhile (fun c => ¬ (c = ','))) ::
        tokSplitF fuel (s2.dropWhile (fun c => ¬ (c = ',')))

/-- Tokenisation entry point with sufficient fuel. -/
def tokSplit (s : Str) : List Str := tokSplitF (s.length + 1) s

/-- Split a string at the first occurrence of `sep` (`find` + two
`substr`s), or report that `sep` does not occur. -/
def splitAtFirst (sep : Char) : Str → Option (Str × Str)
  | [] => none
  | c :: s =>
    if c = sep then some ([], s)
    else
      match splitAtFirst sep s with
      | none => none
      | some (l, r) => some (c :: l, r)

/-- Per-item platform/version resolution of `parse_icecc_version`
(remote.cpp lines 93-120): an optional `platform:` part before the first
`':'` (default: the target platform); in tagged mode (`defT`, i.e. the raw
`$ICECC_VERSION` contains `'='` anywhere) an item with an `=tag` part is
kept only when the tag equals the selection string `pfx` (stripping the
tag), and an item without one is kept only when `pfx` is empty.  `none`
means the item is skipped (`continue`). -/
def itemPlatVer (tp pfx : Str) (defT : Bool) (couple : Str) : Option (Str × Str) :=
  let pv := match splitAtFirst ':' couple with
    | some (p, v) => (p, v)
    | none => (tp, couple)
  if defT = true then
    match splitAtFirst '=' pv.2 with
    | some (v, tag) => if pfx = tag then some (pv.1, v) else none
    | none => if pfx = [] then some pv else none
  else some pv

/-- Result of `lstat(2)` on a path, as far as `parse_icecc_version` looks
at it. -/
structure FStat where
  isReg : Bool
  size : Nat

/-- Filesystem oracle for `parse_icecc_version`: the result of
`access(path, R_OK)` and of `lstat(path)` for every path. -/
structure FsInfo where
  accOk : Str → Bool
  lst : Str → Option FStat

/-- Translation of the per-item filtering loop of `parse_icecc_version`
(remote.cpp lines 92-141), threading the list of platforms already
accepted: a duplicate platform is discarded (line 122), an unreadable path
is discarded (line 127), and a path that cannot be `lstat`ed, is not a
regular file, or is smaller than 500 bytes is discarded (line 134);
otherwise the pair is appended and the platform recorded. -/
def parseLoop (o : FsInfo) (tp pfx : Str) (defT : Bool) :
    List Str → List Str → List (Str × Str)
  | [], _ => []
  | couple :: rest, plats =>
    match itemPlatVer tp pfx defT couple with
    | none => parseLoop o tp pfx defT rest plats
    | some (plat, ver) =>
      if plat ∈ plats then parseLoop o tp pfx defT rest plats
      else if o.accOk ver = false then parseLoop o tp pfx defT rest plats
      else
        match o.lst ver with
        | none => parseLoop o tp pfx defT rest plats
        | some st =>
          if st.isReg = false then parseLoop o tp pfx defT rest plats
          else if st.size < 500 then parseLoop o tp pfx defT rest plats
          else (plat, ver) :: parseLoop o tp pfx defT rest (plat :: plats)

/-- Translation of `parse_icecc_version` (remote.cpp lines 77-144): tagged
mode is on when the raw string contains `'='` anywhere, and the items of the
comma-separated list are filtered by `parseLoop`. -/
def parse_icecc_version (o : FsInfo) (raw tp pfx : Str) : List (Str × Str) :=
  parseLoop o tp pfx (raw.any (fun c => c = '=')) (tokSplit raw) []

/-- Translation of `endswith` (remote.cpp lines 146-157): when `orig` is
strictly longer than `suff` and ends with it, the part before the suffix is
returned. -/
def endswith (orig suff : Str) : Option Str :=
  if suff.length < orig.length ∧ pfxOf suff.reverse orig.reverse = true then
    some (orig.take (orig.length - suff.length))
  else none

/-- The recognised archive suffixes, in the order `rip_out_paths` tries
them (remote.cpp line 166). -/
def suffList : List Str :=
  [".tar.bz2".toList, ".tar.gz".toList, ".tar".toList, ".tgz".toList]

/-- First archive suffix of `suffList` that matches, with the suffix
stripped.  The C++ loop tests all four without breaking, but no path can
end in two of the suffixes at once, so at most one test fires. -/
def matchSuffix (p : Str) : Option Str :=
  match endswith p (".tar.bz2".toList) with
  | some r => some r
  | none =>
    match endswith p (".tar.gz".toList) with
    | some r => some r
    | none =>
      match endswith p (".tar".toList) with
      | some r => some r
      | none => endswith p (".tgz".toList)

/-- Modelled from the spec: `find_basename` comes from `services/util.h`,
which is outside the sources given here; per the spec the version
identifier is the basename of the archive path with the suffix removed,
i.e. the component after the last `'/'`. -/
def find_basename (p : Str) : Str :=
  (p.reverse.takeWhile (fun c => ¬ (c = '/'))).reverse

/-- One iteration of the `rip_out_paths` loop (remote.cpp lines 170-178):
when the archive path carries a recognised suffix, record the full path in
`versionfile_map`, the stripped basename in `version_map`, and append the
entry to the output catalog. -/
def ripStep (acc : List (Str × Str) × (Str → Option Str) × (Str → Option Str))
    (e : Str × Str) : List (Str × Str) × (Str → Option Str) × (Str → Option Str) :=
  match matchSuffix e.2 with
  | none => acc
  | some stripped =>
    let base := find_basename stripped
    (acc.1 ++ [(e.1, base)],
     fun q => if q = e.1 then some base else acc.2.1 q,
     fun q => if q = e.1 then some e.2 else acc.2.2 q)

/-- Translation of `rip_out_paths` (remote.cpp lines 159-181), returning
the filtered catalog `env2` together with `version_map` and
`versionfile_map` (`std::map` assignment semantics: a later entry for the
same platform overwrites an earlier one). -/
def rip_out_paths (envs : List (Str × Str)) :
    List (Str × Str) × (Str → Option Str) × (Str → Option Str) :=
  envs.foldl ripStep ([], fun _ => none, fun _ => none)

/-- Combined filesystem acceptability test of `parse_icecc_version`:
readable, `lstat`-able, a regular file, and at least 500 bytes. -/
def fsPass (o : FsInfo) (v : Str) : Bool :=
  o.accOk v && (match o.lst v with
    | none => false
    | some st => st.isReg && decide (500 ≤ st.size))

/-- Reading of the spec's "the first accepted entry wins": the version of
the first item of the token list that resolves to platform `p` and passes
the filesystem checks. -/
def firstAccepted (o : FsInfo) (tp pfx : Str) (defT : Bool) (items : List Str)
    (p : Str) : Option Str :=
  (items.filterMap (fun couple =>
    match itemPlatVer tp pfx defT couple with
    | none => none
    | some (plat, ver) => if plat = p ∧ fsPass o ver = true then some ver else none)).head?

/-- Association-list lookup by platform (first hit), for stating which
entry a platform key is mapped to in the catalog. -/
def alookup (p : Str) : List (Str × Str) → Option Str
  | [] => none
  | (q, v) :: rest => if q = p then some v else alookup p rest

lemma fsWrite_eq (fs : FS) (p : Str) (d : FileData) : FS.write fs p d p = some d := by
  simp [FS.write]

lemma fsWrite_ne (fs : FS) (p : Str) (d : FileData) (q : Str) (h : q ≠ p) :
    FS.write fs p d q = fs q := by
  simp [FS.write, h]

lemma fsErase_eq (fs : FS) (p : Str) : FS.erase fs p p = none := by
  simp [FS.erase]

lemma fsErase_ne (fs : FS) (p q : Str) (h : q ≠ p) : FS.erase fs p q = fs q := by
  simp [FS.erase, h]

lemma fsErase_none (fs : FS) (p q : Str) (h : fs q = none) : FS.erase fs p q = none := by
  by_cases hq : q = p
  · subst hq; exact fsErase_eq fs q
  · rw [fsErase_ne fs p q hq]; exact h

lemma ne_append_self (l m : Str) (h : m ≠ []) : l ≠ l ++ m := by
  intro he
  have := congrArg List.length he
  simp at this
  exact h this

lemma append_inj_r {a b m : Str} (h : a ++ m = b ++ m) : a = b :=
  List.append_cancel_right h

lemma dwoOf_ne_append_caught (a b : Str) : dwoOf a ≠ b ++ caughtSfx := by
  intro h
  have h2 : (upToLastDot a ++ ".dwo".toList).getLast? = (b ++ caughtSfx).getLast? := by
    rw [show upToLastDot a ++ ".dwo".toList = dwoOf a from rfl, h]
  rw [List.getLast?_append_of_ne_nil, List.getLast?_append_of_ne_nil] at h2
  · simp [caughtSfx] at h2
  · simp [caughtSfx]
  · simp

/-- C9: whenever a `VerifyEnvResult` with `ok = false` is received from the
remote, the environment phase sends exactly one `BlacklistHostEnv` to the
local daemon (it is in the action trace, which is everything performed
before the error is returned) and then propagates the fatal
environment-unusable error 24; moreover no run of the environment phase
ever sends `BlacklistHostEnv` more than once. -/
theorem envPhase_blacklist_on_failed_verify (o : EnvOracle)
    (hstat : o.statOk = true) (hsend : o.sendEnvOk = true) (hopen : o.openEnvOk = true)
    (hstream : o.streamRes = Except.ok ()) (hend : o.sendEndOk = true)
    (hproto : o.proto31 = true) (hvsend : o.verifySendOk = true)
    (hreply : o.reply = some (VReply.verifyResult false)) :
    (envPhase false o).2 = Except.error 24 ∧
      (envPhase false o).1.count DAct.sendBlacklist = 1 ∧
      DAct.sendBlacklist ∈ (envPhase false o).1 ∧
      ∀ g : Bool, ∀ o2 : EnvOracle, (envPhase g o2).1.count DAct.sendBlacklist ≤ 1 := by
  constructor
  · simp [envPhase, hstat, hsend, hopen, hstream, hend, hproto, hvsend, hreply]
  constructor
  · simp [envPhase, hstat, hsend, hopen, hstream, hend, hproto, hvsend, hreply]
  constructor
  · simp [envPhase, hstat, hsend, hopen, hstream, hend, hproto, hvsend, hreply]
  · intro g o2
    rcases o2 with ⟨st, se, oe, sr, en, pr, vs, rp⟩
    cases g <;> cases st <;> cases se <;> cases oe <;>
      rcases sr with e | ⟨⟩ <;> cases en <;> cases pr <;> cases vs <;>
      rcases rp with _ | (b | _) <;> try cases b
    all_goals simp [envPhase]

theorem envPhase_blacklist_on_failed_verify_witness :
    (envPhase false ⟨true, true, true, Except.ok (), true, true, true,
        some (VReply.verifyResult false)⟩).2 = Except.error 24 ∧
      (envPhase false ⟨true, true, true, Except.ok (), true, true, true,
        some (VReply.verifyResult false)⟩).1.count DAct.sendBlacklist = 1 ∧
      DAct.sendBlacklist ∈ (envPhase false ⟨true, true, true, Except.ok (), true, true,
        true, some (VReply.verifyResult false)⟩).1 ∧
      ∀ g : Bool, ∀ o2 : EnvOracle, (envPhase g o2).1.count DAct.sendBlacklist ≤ 1 :=
  envPhase_blacklist_on_failed_verify _ rfl rfl rfl rfl rfl rfl rfl rfl

/-- C10: when the assignment names the loopback host and the test-mode
remote override does not apply, `maybe_build_local` (given that the initial
job write to the daemon succeeds) runs the local build and returns exactly
the success of the `JobDone` send; and when that send fails the caller goes
on to dial the remote and run `build_remote_int` even though the local
build already ran. -/
theorem maybe_build_local_jobdone_failure_dials_remote (port : Nat) (o : LocalOracle)
    (remoteResult : Except Nat Int)
    (hnt : ¬ (o.testRemoteSet = true ∧ port ≠ 0)) (hsc : o.sendCompileOk = true) :
    maybe_build_local loopbackHost port o =
      ([DAct.sendCompileToDaemon, DAct.runBuildLocal, DAct.sendJobDone],
        Except.ok (o.sendJobDoneOk, some o.localExit)) ∧
    (o.sendJobDoneOk = false →
      dispatchSingle loopbackHost port o remoteResult =
        ([DAct.sendCompileToDaemon, DAct.runBuildLocal, DAct.sendJobDone,
          DAct.dialRemote], remoteResult)) := by
  have h1 : maybe_build_local loopbackHost port o =
      ([DAct.sendCompileToDaemon, DAct.runBuildLocal, DAct.sendJobDone],
        Except.ok (o.sendJobDoneOk, some o.localExit)) := by
    simp [maybe_build_local, hnt, hsc]
  refine ⟨h1, fun hj => ?_⟩
  simp [dispatchSingle, h1, hj]

theorem maybe_build_local_jobdone_failure_dials_remote_witness :
    maybe_build_local loopbackHost 0 ⟨false, true, 7, false⟩ =
      ([DAct.sendCompileToDaemon, DAct.runBuildLocal, DAct.sendJobDone],
        Except.ok (false, some 7)) ∧
    ((false : Bool) = false →
      dispatchSingle loopbackHost 0 ⟨false, true, 7, false⟩ (Except.ok 3) =
        ([DAct.sendCompileToDaemon, DAct.runBuildLocal, DAct.sendJobDone,
          DAct.dialRemote], Except.ok 3)) :=
  maybe_build_local_jobdone_failure_dials_remote 0 ⟨false, true, 7, false⟩
    (Except.ok 3) (by decide) rfl

/-- C5 counterexample: with hostname `127.0.0.1` and port 0 the claim says
the driver never dials the remote path, but when the `JobDone` send to the
local daemon fails, `maybe_build_local` returns `false` (remote.cpp line
719) and the caller dials the remote and runs `build_remote_int` after the
local build already ran. -/
theorem loopback_port0_dials_remote_on_jobdone_failure :
    DAct.dialRemote ∈
      (dispatchSingle loopbackHost 0 ⟨false, true, 7, false⟩ (Except.ok 5)).1 ∧
    DAct.runBuildLocal ∈
      (dispatchSingle loopbackHost 0 ⟨false, true, 7, false⟩ (Except.ok 5)).1 := by
  decide

/-- C5 (amended): with hostname `127.0.0.1` and port 0, provided both sends
to the local daemon succeed, the driver handles the job via the local
fallback (`build_local` plus the `JobDone` report) and never dials the
remote path; and with hostname `127.0.0.1`, a non-zero port and
`ICECC_TEST_REMOTEBUILD` set, the driver skips the local fallback and
handles the job remotely. -/
theorem loopback_dispatch (port : Nat) (o : LocalOracle) (r : Except Nat Int) :
    (port = 0 → o.sendCompileOk = true → o.sendJobDoneOk = true →
      dispatchSingle loopbackHost port o r =
        ([DAct.sendCompileToDaemon, DAct.runBuildLocal, DAct.sendJobDone],
          Except.ok o.localExit)) ∧
    (o.testRemoteSet = true → port ≠ 0 →
      dispatchSingle loopbackHost port o r = ([DAct.dialRemote], r)) := by
  constructor
  · intro hp hc hj
    subst hp
    have h1 : maybe_build_local loopbackHost 0 o =
        ([DAct.sendCompileToDaemon, DAct.runBuildLocal, DAct.sendJobDone],
          Except.ok (true, some o.localExit)) := by
      simp [maybe_build_local, hc, hj]
    simp [dispatchSingle, h1]
  · intro ht hp
    have h1 : maybe_build_local loopbackHost port o = ([], Except.ok (false, none)) := by
      simp [maybe_build_local, ht, hp]
    simp [dispatchSingle, h1]

theorem loopback_dispatch_witness :
    (dispatchSingle loopbackHost 0 ⟨false, true, 7, true⟩ (Except.ok 5) =
      ([DAct.sendCompileToDaemon, DAct.runBuildLocal, DAct.sendJobDone],
        Except.ok 7)) ∧
    (dispatchSingle loopbackHost 632 ⟨true, true, 7, true⟩ (Except.ok 5) =
      ([DAct.dialRemote], Except.ok 5)) :=
  ⟨(loopback_dispatch 0 ⟨false, true, 7, true⟩ (Except.ok 5)).1 rfl rfl rfl,
   (loopback_dispatch 632 ⟨true, true, 7, true⟩ (Except.ok 5)).2 rfl (by decide)⟩

/-- C6 counterexample: in the replication branch a failed `GetCS` send does
not raise error 24 as the claim says; `build_remote` throws
`client_error(0, "Error 0 - asked for CS")` there (remote.cpp line 836). -/
theorem replication_getcs_failure_is_error_zero :
    (buildRemoteRep (fun _ _ => 0) false (fun _ => []) ("pp.ix".toList) 3
        ⟨true, 0, false, true, []⟩ (fun _ => none)).2 = Except.error 0 ∧
    (buildRemoteRep (fun _ _ => 0) false (fun _ => []) ("pp.ix".toList) 3
        ⟨true, 0, false, true, []⟩ (fun _ => none)).2 ≠ Except.error 24 := by
  constructor
  · rfl
  · simp [buildRemoteRep]

/-- C6 (amended): a failed `GetCS` send to the local daemon raises
`client_error` 24 in the single-job path, but `client_error` 0 (with the
same "asked for CS" message) in the replication path. -/
theorem getcs_send_failure_codes (so : SingleOracle) (dg : List Nat → Nat → Nat)
    (dwarf : Bool) (outs : Nat → Str) (pp : Str) (n : Nat) (o : RepOracle) (fs : FS) :
    (so.sendGetcsOk = false → build_remote_single so = ([], Except.error 24)) ∧
    (o.cppForkOk = true → o.cppExit = 0 → o.sendGetcsOk = false →
      buildRemoteRep dg dwarf outs pp n o fs = (fs, Except.error 0)) := by
  constructor
  · intro h
    simp [build_remote_single, h]
  · intro h1 h2 h3
    simp [buildRemoteRep, h1, h2, h3]

theorem getcs_send_failure_codes_witness :
    (build_remote_single ⟨false, true, [], 0, ⟨false, true, 0, true⟩, Except.ok 0⟩ =
      ([], Except.error 24)) ∧
    (buildRemoteRep (fun _ _ => 0) false (fun _ => []) ("pp.ix".toList) 3
        ⟨true, 0, false, true, []⟩ (fun _ => none) = ((fun _ => none), Except.error 0)) :=
  ⟨(getcs_send_failure_codes ⟨false, true, [], 0, ⟨false, true, 0, true⟩, Except.ok 0⟩
      (fun _ _ => 0) false (fun _ => []) ("pp.ix".toList) 3
      ⟨true, 0, false, true, []⟩ (fun _ => none)).1 rfl,
   (getcs_send_failure_codes ⟨false, true, [], 0, ⟨false, true, 0, true⟩, Except.ok 0⟩
      (fun _ _ => 0) false (fun _ => []) ("pp.ix".toList) 3
      ⟨true, 0, false, true, []⟩ (fun _ => none)).2 rfl rfl rfl⟩

lemma tmp_ne_out (out : Str) : out ++ iceTmpSfx ≠ out :=
  fun h => ne_append_self out iceTmpSfx (by decide) h.symm

/-- C4: `receive_file` stages all incoming bytes in `<output>_icetmp`
(created by open with `O_CREAT | O_TRUNC`, mode 0666) and renames it onto
the output path only after a fully successful receive and close; on every
failing return the output path is exactly as before the call (so it stays
absent if it did not exist) and, provided the open itself succeeded, the
temp file has been unlinked; nothing but the output and temp paths is ever
touched. -/
theorem receive_file_atomic (fs : FS) (out : Str) (openOk : Bool) (msgs : List RMsg)
    (wok : Nat → Bool) (closeOk renameOk : Bool) :
    (∀ data, openOk = true → fs (out ++ iceTmpSfx) = none →
      receive_fd wok msgs 0 [] = Except.ok data → closeOk = true → renameOk = true →
      (receive_file fs out openOk msgs wok closeOk renameOk).2 = Except.ok () ∧
      (receive_file fs out openOk msgs wok closeOk renameOk).1 out = some ⟨data, 438⟩ ∧
      (receive_file fs out openOk msgs wok closeOk renameOk).1 (out ++ iceTmpSfx) = none ∧
      ∀ q, q ≠ out → q ≠ out ++ iceTmpSfx →
        (receive_file fs out openOk msgs wok closeOk renameOk).1 q = fs q) ∧
    (∀ e, (receive_file fs out openOk msgs wok closeOk renameOk).2 = Except.error e →
      (receive_file fs out openOk msgs wok closeOk renameOk).1 out = fs out ∧
      (openOk = true →
        (receive_file fs out openOk msgs wok closeOk renameOk).1 (out ++ iceTmpSfx) = none) ∧
      ∀ q, q ≠ out ++ iceTmpSfx →
        (receive_file fs out openOk msgs wok closeOk renameOk).1 q = fs q) := by
  have htmp : out ++ iceTmpSfx ≠ out := tmp_ne_out out
  have houtTmp : out ≠ out ++ iceTmpSfx := fun h => htmp h.symm
  constructor
  · intro data ho htn hrec hc hr
    subst ho; subst hc; subst hr
    refine ⟨?_, ?_, ?_, ?_⟩
    · simp [receive_file, hrec]
    · simp [receive_file, hrec, openCreateTrunc, htn, fsRename, FS.write, FS.erase]
    · simp [receive_file, hrec, openCreateTrunc, htn, fsRename, FS.write, FS.erase, htmp]
    · intro q hqo hqt
      simp [receive_file, hrec, openCreateTrunc, htn, fsRename, FS.write, FS.erase,
        htmp, hqo, hqt]
  · intro e he
    cases ho : openOk with
    | false =>
      have hval : receive_file fs out false msgs wok closeOk renameOk =
          (fs, Except.error 31) := by simp [receive_file]
      rw [hval]
      exact ⟨rfl, fun h => absurd h (by decide), fun q _ => rfl⟩
    | true =>
      subst ho
      have hoc : ∀ q, q ≠ out ++ iceTmpSfx →
          openCreateTrunc fs (out ++ iceTmpSfx) q = fs q := by
        intro q hq
        rw [openCreateTrunc]
        cases hfst : fs (out ++ iceTmpSfx) <;> simp [FS.write, hq]
      cases hrec : receive_fd wok msgs 0 [] with
      | error e2 =>
        refine ⟨?_, fun _ => ?_, fun q hq => ?_⟩
        · simp only [receive_file, Bool.true_eq_false, if_false, hrec]
          rw [fsErase_ne _ _ _ houtTmp, hoc out houtTmp]
        · simp only [receive_file, Bool.true_eq_false, if_false, hrec]
          exact fsErase_eq _ _
        · simp only [receive_file, Bool.true_eq_false, if_false, hrec]
          rw [fsErase_ne _ _ _ hq, hoc q hq]
      | ok data =>
        have hw : ∀ q, q ≠ out ++ iceTmpSfx →
            ((openCreateTrunc fs (out ++ iceTmpSfx)).write (out ++ iceTmpSfx)
              ⟨data, ((openCreateTrunc fs (out ++ iceTmpSfx)) (out ++ iceTmpSfx)).elim
                438 FileData.mode⟩) q = fs q := by
          intro q hq
          rw [fsWrite_ne _ _ _ _ hq, hoc q hq]
        cases hc : closeOk with
        | true =>
          cases hr : renameOk with
          | true =>
            rw [hc, hr] at he
            simp [receive_file, hrec] at he
          | false =>
            refine ⟨?_, fun _ => ?_, fun q hq => ?_⟩
            · simp only [receive_file, Bool.true_eq_false, if_false, hrec, hc, hr,
                Bool.false_eq_true, if_true]
              rw [fsErase_ne _ _ _ houtTmp, hw out houtTmp]
            · simp only [receive_file, Bool.true_eq_false, if_false, hrec, hc, hr,
                Bool.false_eq_true, if_true]
              exact fsErase_eq _ _
            · simp only [receive_file, Bool.true_eq_false, if_false, hrec, hc, hr,
                Bool.false_eq_true, if_true]
              rw [fsErase_ne _ _ _ hq, hw q hq]
        | false =>
          refine ⟨?_, fun _ => ?_, fun q hq => ?_⟩
          · simp only [receive_file, Bool.true_eq_false, if_false, hrec, hc,
              Bool.false_eq_true]
            rw [fsErase_ne _ _ _ houtTmp, hw out houtTmp]
          · simp only [receive_file, Bool.true_eq_false, if_false, hrec, hc,
              Bool.false_eq_true]
            exact fsErase_eq _ _
          · simp only [receive_file, Bool.true_eq_false, if_false, hrec, hc,
              Bool.false_eq_true]
            rw [fsErase_ne _ _ _ hq, hw q hq]

theorem receive_file_atomic_witness :
    (receive_file (fun _ => none) ("o.o".toList) true [RMsg.chunk [7, 8], RMsg.endMsg]
        (fun _ => true) true true).2 = Except.ok () ∧
    (receive_file (fun _ => none) ("o.o".toList) true [RMsg.chunk [7, 8], RMsg.endMsg]
        (fun _ => true) true true).1 ("o.o".toList) = some ⟨[7, 8], 438⟩ ∧
    (receive_file (fun _ => none) ("o.o".toList) true [RMsg.chunk [7, 8], RMsg.endMsg]
        (fun _ => true) true true).1 ("o.o".toList ++ iceTmpSfx) = none ∧
    ∀ q, q ≠ "o.o".toList → q ≠ "o.o".toList ++ iceTmpSfx →
      (receive_file (fun _ => none) ("o.o".toList) true [RMsg.chunk [7, 8], RMsg.endMsg]
        (fun _ => true) true true).1 q = none :=
  (receive_file_atomic (fun _ => none) ("o.o".toList) true
    [RMsg.chunk [7, 8], RMsg.endMsg] (fun _ => true) true true).1 [7, 8]
    rfl rfl rfl rfl rfl

lemma digestHex_ne_nil (d : Nat → Nat) : digestHex d ≠ [] := by
  have h : List.range 16 = [0, 1, 2, 3, 4, 5, 6, 7, 8, 9, 10, 11, 12, 13, 14, 15] := by
    decide
  rw [digestHex, h]
  simp [hexByte]

/-- C3 (amended): `md5_for_file` returns the empty string when the file
cannot be opened, and the replication reconciliation compares digests with
plain string equality; an empty digest is therefore never equal to the
digest of a file that could be opened (those are 32 characters long), but
two empty digests compare equal, so two unopenable outputs are classified
as agreeing. -/
theorem md5_for_file_empty_digest (dg : List Nat → Nat → Nat) (fs : FS) (p q : Str)
    (c : FileData) (hp : fs p = none) :
    md5_for_file dg fs p = [] ∧
    (fs q = some c → md5_for_file dg fs p ≠ md5_for_file dg fs q) ∧
    (fs q = none → md5_for_file dg fs p = md5_for_file dg fs q) := by
  refine ⟨by simp [md5_for_file, hp], fun hq => ?_,
    fun hq => by simp [md5_for_file, hp, hq]⟩
  simp only [md5_for_file, hp, hq]
  exact fun h => digestHex_ne_nil (dg c.content) h.symm

theorem md5_for_file_empty_digest_witness :
    md5_for_file (fun _ _ => 0)
      (fun s => if s = "b.o".toList then some ⟨[1], 438⟩ else none) ("a.o".toList) = [] ∧
    ((fun s => if s = "b.o".toList then some ⟨[1], 438⟩ else none : FS) ("b.o".toList) =
        some ⟨[1], 438⟩ →
      md5_for_file (fun _ _ => 0)
        (fun s => if s = "b.o".toList then some ⟨[1], 438⟩ else none) ("a.o".toList) ≠
      md5_for_file (fun _ _ => 0)
        (fun s => if s = "b.o".toList then some ⟨[1], 438⟩ else none) ("b.o".toList)) ∧
    ((fun s => if s = "b.o".toList then some ⟨[1], 438⟩ else none : FS) ("b.o".toList) =
        none →
      md5_for_file (fun _ _ => 0)
        (fun s => if s = "b.o".toList then some ⟨[1], 438⟩ else none) ("a.o".toList) =
      md5_for_file (fun _ _ => 0)
        (fun s => if s = "b.o".toList then some ⟨[1], 438⟩ else none) ("b.o".toList)) :=
  md5_for_file_empty_digest (fun _ _ => 0)
    (fun s => if s = "b.o".toList then some ⟨[1], 438⟩ else none)
    ("a.o".toList) ("b.o".toList) ⟨[1], 438⟩ (by decide)

/-- C3 counterexample: when both replica output files cannot be opened,
both digests are the empty string, the plain string comparison finds them
equal, and the reconciliation classifies the replicas as agreeing (it
returns exit 0 instead of flagging a mismatch) — refuting the claim that an
empty digest is never equal to any other digest and that the
reconciliation never classifies unopenable outputs as agreeing. -/
theorem md5_agreement_both_unopenable :
    md5_for_file (fun _ _ => 0) (fun _ => none) ("a.o".toList) = [] ∧
    md5_for_file (fun _ _ => 0) (fun _ => none) ("b.o".toList) = [] ∧
    md5_for_file (fun _ _ => 0) (fun _ => none) ("a.o".toList) =
      md5_for_file (fun _ _ => 0) (fun _ => none) ("b.o".toList) ∧
    (reconcile (fun _ _ => 0) false
      (fun i => if i = 0 then "a.o".toList else if i = 1 then "b.o".toList
        else "c.o".toList)
      (fun _ => 0) false ("pp.ix".toList) 3 (fun _ => none)).2 = Except.ok 0 :=
  ⟨rfl, rfl, rfl, rfl⟩

lemma unlinkOut_ne (dwarf : Bool) (fs : FS) (p q : Str) (h1 : q ≠ p)
    (h2 : q ≠ dwoOf p) : unlinkOut dwarf fs p q = fs q := by
  cases dwarf <;> simp [unlinkOut, FS.erase, h1, h2]

lemma unlinkOut_none (dwarf : Bool) (fs : FS) (p q : Str) (h : fs q = none) :
    unlinkOut dwarf fs p q = none := by
  cases dwarf <;> simp [unlinkOut, FS.erase, h]

lemma unlinkOut_self (dwarf : Bool) (fs : FS) (p : Str) :
    unlinkOut dwarf fs p p = none := by
  cases dwarf <;> simp [unlinkOut, FS.erase]

lemma unlinkOut_dwo (fs : FS) (p : Str) : unlinkOut true fs p (dwoOf p) = none := by
  simp [unlinkOut, FS.erase]

lemma md5_congr (dg : List Nat → Nat → Nat) (fs1 fs2 : FS) (p : Str)
    (h : fs1 p = fs2 p) : md5_for_file dg fs1 p = md5_for_file dg fs2 p := by
  rw [md5_for_file, md5_for_file, h]

lemma reconLoop_agree (dg : List Nat → Nat → Nat) (dwarf : Bool) (outs : Nat → Str)
    (ec : Nat → Int) (pp : Str) (firstMd5 : Str) (l : List Nat) :
    ∀ (fs : FS), ec 0 = 0 → l.Nodup →
    (∀ j ∈ l, ec j = 0 ∧ md5_for_file dg fs (outs j) = firstMd5) →
    (∀ j ∈ l, ∀ k ∈ l, j ≠ k → outs j ≠ outs k ∧ dwoOf (outs j) ≠ outs k) →
    (reconLoop dg dwarf outs ec pp firstMd5 l fs).2 = ec 0 ∧
    (∀ q, fs q = none → (reconLoop dg dwarf outs ec pp firstMd5 l fs).1 q = none) ∧
    (∀ j ∈ l, (reconLoop dg dwarf outs ec pp firstMd5 l fs).1 (outs j) = none ∧
      (dwarf = true →
        (reconLoop dg dwarf outs ec pp firstMd5 l fs).1 (dwoOf (outs j)) = none)) := by
  induction l with
  | nil =>
    intro fs he0 _ _ _
    exact ⟨rfl, fun q h => h, by simp⟩
  | cons i rest ih =>
    intro fs he0 hnd hj hd
    have hi := hj i (List.mem_cons_self i rest)
    have hstep : reconLoop dg dwarf outs ec pp firstMd5 (i :: rest) fs =
        reconLoop dg dwarf outs ec pp firstMd5 rest (unlinkOut dwarf fs (outs i)) := by
      rw [reconLoop, if_pos he0, if_neg (by rw [hi.1]; decide),
        if_neg (by simp [hi.1]), if_neg (by simp [hi.2])]
    have hiNotRest : i ∉ rest := (List.nodup_cons.mp hnd).1
    have hfs' : ∀ j ∈ rest, unlinkOut dwarf fs (outs i) (outs j) = fs (outs j) := by
      intro j hjr
      have hij : i ≠ j := fun h => hiNotRest (h ▸ hjr)
      have hdij := hd i (List.mem_cons_self i rest) j (List.mem_cons_of_mem i hjr) hij
      exact unlinkOut_ne dwarf fs (outs i) (outs j) (Ne.symm hdij.1) (Ne.symm hdij.2)
    have hrec := ih (unlinkOut dwarf fs (outs i)) he0 (List.nodup_cons.mp hnd).2
      (fun j hjr => ⟨(hj j (List.mem_cons_of_mem i hjr)).1,
        by rw [md5_congr dg _ fs (outs j) (hfs' j hjr)]
           exact (hj j (List.mem_cons_of_mem i hjr)).2⟩)
      (fun j hjr k hkr hjk =>
        hd j (List.mem_cons_of_mem i hjr) k (List.mem_cons_of_mem i hkr) hjk)
    rw [hstep]
    refine ⟨hrec.1, ?_, ?_⟩
    · intro q hq
      exact hrec.2.1 q (unlinkOut_none dwarf fs (outs i) q hq)
    · intro j hjm
      rcases List.mem_cons.mp hjm with h | h
      · subst h
        refine ⟨hrec.2.1 _ (unlinkOut_self dwarf fs (outs j)), fun hdw => ?_⟩
        subst hdw
        exact hrec.2.1 _ (unlinkOut_dwo fs (outs j))
      · exact hrec.2.2 j h

lemma foldlUnlink_none (dwarf : Bool) (outs : Nat → Str) (l : List Nat) :
    ∀ (fs : FS) (q : Str), fs q = none →
    (l.foldl (fun a i => unlinkOut dwarf a (outs i)) fs) q = none := by
  induction l with
  | nil => intro fs q h; exact h
  | cons i rest ih =>
    intro fs q h
    exact ih _ q (unlinkOut_none dwarf fs (outs i) q h)

lemma foldlUnlink_mem (dwarf : Bool) (outs : Nat → Str) (l : List Nat) :
    ∀ (fs : FS), ∀ j ∈ l,
    (l.foldl (fun a i => unlinkOut dwarf a (outs i)) fs) (outs j) = none ∧
    (dwarf = true →
      (l.foldl (fun a i => unlinkOut dwarf a (outs i)) fs) (dwoOf (outs j)) = none) := by
  induction l with
  | nil => intro fs j hj; exact absurd hj (List.not_mem_nil j)
  | cons i rest ih =>
    intro fs j hj
    rcases List.mem_cons.mp hj with h | h
    · subst h
      refine ⟨foldlUnlink_none dwarf outs rest _ _
        (unlinkOut_self dwarf fs (outs j)), fun hdw => ?_⟩
      subst hdw
      exact foldlUnlink_none true outs rest _ _ (unlinkOut_dwo fs (outs j))
    · exact ih _ j h

lemma reconcile_not_misc (dg : List Nat → Nat → Nat) (dwarf : Bool) (outs : Nat → Str)
    (ec : Nat → Int) (pp : Str) (n : Nat) (fs : FS) :
    reconcile dg dwarf outs ec false pp n fs =
      ((reconLoop dg dwarf outs ec pp (md5_for_file dg fs (outs 0))
          (List.range' 1 (n - 1)) fs).1.erase pp,
        Except.ok (reconLoop dg dwarf outs ec pp (md5_for_file dg fs (outs 0))
          (List.range' 1 (n - 1)) fs).2) := rfl

lemma reconcile_misc (dg : List Nat → Nat → Nat) (dwarf : Bool) (outs : Nat → Str)
    (ec : Nat → Int) (pp : Str) (n : Nat) (fs : FS) :
    reconcile dg dwarf outs ec true pp n fs =
      (((List.range' 1 (n - 1)).foldl (fun a i => unlinkOut dwarf a (outs i))
          (unlinkOut dwarf fs (outs 0))).erase pp, Except.error 27) := rfl

/-- C2 (amended): in replication mode the replica outputs at slots 1..N−1
(and their `.dwo` sidecars when dwarf fission is enabled) are all unlinked
by the time `build_remote` returns on the misc-error path, and on the
reconciliation path when every replica exited 0 with a digest matching slot
0's (full agreement); when an exit-code or md5 mismatch aborts the loop at
slot i, the outputs at slots i..N−1 are left behind, and a slot with the
sentinel exit 42 is skipped without being unlinked. -/
theorem replica_outputs_unlinked (dg : List Nat → Nat → Nat) (dwarf : Bool)
    (outs : Nat → Str) (pp : Str) (n : Nat) (o : RepOracle) (fs : FS)
    (hcpp : o.cppForkOk = true) (hcx : o.cppExit = 0) (hgc : o.sendGetcsOk = true)
    (hgs : o.getServersOk = true)
    (hD : ∀ j, j < n → ∀ k, k < n → j ≠ k → outs j ≠ outs k)
    (hD2 : ∀ j, j < n → ∀ k, k < n → dwoOf (outs j) ≠ outs k) :
    ((reapLoop o.reaps ec42).2 = false → (reapLoop o.reaps ec42).1 0 = 0 →
      (∀ j, j < n → 1 ≤ j → (reapLoop o.reaps ec42).1 j = 0 ∧
        md5_for_file dg fs (outs j) = md5_for_file dg fs (outs 0)) →
      (buildRemoteRep dg dwarf outs pp n o fs).2 = Except.ok 0 ∧
      ∀ j, j < n → 1 ≤ j →
        (buildRemoteRep dg dwarf outs pp n o fs).1 (outs j) = none ∧
        (dwarf = true →
          (buildRemoteRep dg dwarf outs pp n o fs).1 (dwoOf (outs j)) = none)) ∧
    ((reapLoop o.reaps ec42).2 = true →
      (buildRemoteRep dg dwarf outs pp n o fs).2 = Except.error 27 ∧
      ∀ j, j < n →
        (buildRemoteRep dg dwarf outs pp n o fs).1 (outs j) = none ∧
        (dwarf = true →
          (buildRemoteRep dg dwarf outs pp n o fs).1 (dwoOf (outs j)) = none)) := by
  have hbr : buildRemoteRep dg dwarf outs pp n o fs =
      reconcile dg dwarf outs (reapLoop o.reaps ec42).1 (reapLoop o.reaps ec42).2
        pp n fs := by
    simp [buildRemoteRep, hcpp, hcx, hgc, hgs]
  constructor
  · intro hm he0 hall
    have hmem : ∀ j ∈ List.range' 1 (n - 1), 1 ≤ j ∧ j < n := by
      intro j hjm
      have := List.mem_range'_1.mp hjm
      omega
    have hrec := reconLoop_agree dg dwarf outs (reapLoop o.reaps ec42).1 pp
      (md5_for_file dg fs (outs 0)) (List.range' 1 (n - 1)) fs he0
      (List.nodup_range' 1 (n - 1))
      (fun j hjm => ⟨(hall j (hmem j hjm).2 (hmem j hjm).1).1,
        (hall j (hmem j hjm).2 (hmem j hjm).1).2⟩)
      (fun j hjm k hkm hjk =>
        ⟨hD j (hmem j hjm).2 k (hmem k hkm).2 hjk,
          hD2 j (hmem j hjm).2 k (hmem k hkm).2⟩)
    rw [hbr, hm, reconcile_not_misc]
    refine ⟨by rw [hrec.1, he0], fun j hjn hj1 => ?_⟩
    have hjm : j ∈ List.range' 1 (n - 1) := by
      rw [List.mem_range'_1]; omega
    exact ⟨fsErase_none _ pp _ ((hrec.2.2 j hjm).1),
      fun hdw => fsErase_none _ pp _ ((hrec.2.2 j hjm).2 hdw)⟩
  · intro hm
    rw [hbr, hm, reconcile_misc]
    refine ⟨rfl, fun j hjn => ?_⟩
    rcases Nat.eq_zero_or_pos j with h0 | h1
    · subst h0
      refine ⟨fsErase_none _ pp _ (foldlUnlink_none dwarf outs _ _ _
        (unlinkOut_self dwarf fs (outs 0))), fun hdw => ?_⟩
      subst hdw
      exact fsErase_none _ pp _ (foldlUnlink_none true outs _ _ _
        (unlinkOut_dwo fs (outs 0)))
    · have hjm : j ∈ List.range' 1 (n - 1) := by
        rw [List.mem_range'_1]; omega
      have hfm := foldlUnlink_mem dwarf outs (List.range' 1 (n - 1))
        (unlinkOut dwarf fs (outs 0)) j hjm
      exact ⟨fsErase_none _ pp _ hfm.1, fun hdw => fsErase_none _ pp _ (hfm.2 hdw)⟩

theorem replica_outputs_unlinked_witness :
    ((buildRemoteRep (fun _ _ => 5) false
        (fun i => if i = 0 then "a.o".toList else if i = 1 then "b.o".toList
          else "c.o".toList)
        ("pp.ix".toList) 3 ⟨true, 0, true, true, [(0, some 0), (1, some 0), (2, some 0)]⟩
        (fun s => if s = "pp.ix".toList then some ⟨[9], 438⟩ else some ⟨[1], 438⟩)).2 =
      Except.ok 0 ∧
      ∀ j, j < 3 → 1 ≤ j →
        (buildRemoteRep (fun _ _ => 5) false
          (fun i => if i = 0 then "a.o".toList else if i = 1 then "b.o".toList
            else "c.o".toList)
          ("pp.ix".toList) 3 ⟨true, 0, true, true, [(0, some 0), (1, some 0), (2, some 0)]⟩
          (fun s => if s = "pp.ix".toList then some ⟨[9], 438⟩ else some ⟨[1], 438⟩)).1
            ((fun i => if i = 0 then "a.o".toList else if i = 1 then "b.o".toList
              else "c.o".toList) j) = none ∧
        (false = true →
          (buildRemoteRep (fun _ _ => 5) false
            (fun i => if i = 0 then "a.o".toList else if i = 1 then "b.o".toList
              else "c.o".toList)
            ("pp.ix".toList) 3
            ⟨true, 0, true, true, [(0, some 0), (1, some 0), (2, some 0)]⟩
            (fun s => if s = "pp.ix".toList then some ⟨[9], 438⟩ else some ⟨[1], 438⟩)).1
              (dwoOf ((fun i => if i = 0 then "a.o".toList else if i = 1 then "b.o".toList
                else "c.o".toList) j)) = none)) :=
  (replica_outputs_unlinked (fun _ _ => 5) false
    (fun i => if i = 0 then "a.o".toList else if i = 1 then "b.o".toList
      else "c.o".toList)
    ("pp.ix".toList) 3 ⟨true, 0, true, true, [(0, some 0), (1, some 0), (2, some 0)]⟩
    (fun s => if s = "pp.ix".toList then some ⟨[9], 438⟩ else some ⟨[1], 438⟩)
    rfl rfl rfl rfl (by decide) (by decide)).1 (by decide) (by decide) (by decide)

/-- C2 counterexample: every replica exited 0 but slot 1's digest differs
from slot 0's, so the reconciliation breaks at slot 1 with the `.caught`
renames, and the outputs of slots 1 and 2 are still present when
`build_remote` returns — refuting the claim that replica outputs at slots
≥ 1 are unlinked on every path. -/
theorem replica_outputs_left_behind_on_mismatch :
    (buildRemoteRep (fun c _ => if c = [1] then 0 else 1) false
      (fun i => if i = 0 then "a.o".toList else if i = 1 then "b.o".toList
        else "c.o".toList)
      ("pp.ix".toList) 3 ⟨true, 0, true, true, [(0, some 0), (1, some 0), (2, some 0)]⟩
      (fun s => if s = "pp.ix".toList then some ⟨[9], 438⟩
        else if s = "b.o".toList then some ⟨[2], 438⟩ else some ⟨[1], 438⟩)).2 =
      Except.ok (-1) ∧
    (reapLoop [(0, some 0), (1, some 0), (2, some 0)] ec42).2 = false ∧
    (reapLoop [(0, some 0), (1, some 0), (2, some 0)] ec42).1 1 = 0 ∧
    (reapLoop [(0, some 0), (1, some 0), (2, some 0)] ec42).1 2 = 0 ∧
    (buildRemoteRep (fun c _ => if c = [1] then 0 else 1) false
      (fun i => if i = 0 then "a.o".toList else if i = 1 then "b.o".toList
        else "c.o".toList)
      ("pp.ix".toList) 3 ⟨true, 0, true, true, [(0, some 0), (1, some 0), (2, some 0)]⟩
      (fun s => if s = "pp.ix".toList then some ⟨[9], 438⟩
        else if s = "b.o".toList then some ⟨[2], 438⟩ else some ⟨[1], 438⟩)).1
      ("b.o".toList) = some ⟨[2], 438⟩ ∧
    (buildRemoteRep (fun c _ => if c = [1] then 0 else 1) false
      (fun i => if i = 0 then "a.o".toList else if i = 1 then "b.o".toList
        else "c.o".toList)
      ("pp.ix".toList) 3 ⟨true, 0, true, true, [(0, some 0), (1, some 0), (2, some 0)]⟩
      (fun s => if s = "pp.ix".toList then some ⟨[9], 438⟩
        else if s = "b.o".toList then some ⟨[2], 438⟩ else some ⟨[1], 438⟩)).1
      ("c.o".toList) = some ⟨[1], 438⟩ := by
  refine ⟨rfl, rfl, rfl, rfl, ?_, ?_⟩ <;> decide

lemma reconLoop_break (dg : List Nat → Nat → Nat) (dwarf : Bool) (outs : Nat → Str)
    (ec : Nat → Int) (pp : Str) (firstMd5 : Str) (i : Nat) (l2 : List Nat)
    (l1 : List Nat) :
    ∀ (fs : FS), ec 0 = 0 → ec i = 0 →
    md5_for_file dg fs (outs i) ≠ firstMd5 →
    l1.Nodup → i ∉ l1 →
    (∀ j ∈ l1, ec j = 42 ∨ (ec j = 0 ∧ md5_for_file dg fs (outs j) = firstMd5)) →
    (∀ j ∈ l1, outs j ≠ outs 0 ∧ dwoOf (outs j) ≠ outs 0 ∧ outs j ≠ pp ∧
      dwoOf (outs j) ≠ pp ∧ outs j ≠ dwoOf (outs 0) ∧ dwoOf (outs j) ≠ dwoOf (outs 0) ∧
      outs j ≠ outs i ∧ dwoOf (outs j) ≠ outs i) →
    (∀ j ∈ l1, ∀ k ∈ l1, j ≠ k → outs j ≠ outs k ∧ dwoOf (outs j) ≠ outs k) →
    ∃ fsb : FS,
      reconLoop dg dwarf outs ec pp firstMd5 (l1 ++ i :: l2) fs =
        (renameCaught dwarf (outs 0) pp fsb, -1) ∧
      fsb (outs 0) = fs (outs 0) ∧ fsb pp = fs pp ∧
      fsb (dwoOf (outs 0)) = fs (dwoOf (outs 0)) := by
  induction l1 with
  | nil =>
    intro fs he0 hei hmd _ _ _ _ _
    refine ⟨fs, ?_, rfl, rfl, rfl⟩
    rw [List.nil_append, reconLoop, if_pos he0, if_neg (by rw [hei]; decide),
      if_neg (by simp [hei]), if_pos hmd]
  | cons j0 l1' ih =>
    intro fs he0 hei hmd hnd hni hj hd0 hdl
    have hj0 := hj j0 (List.mem_cons_self j0 l1')
    have hd0j := hd0 j0 (List.mem_cons_self j0 l1')
    rcases hj0 with h42 | hzm
    · have hstep : reconLoop dg dwarf outs ec pp firstMd5 ((j0 :: l1') ++ i :: l2) fs =
          reconLoop dg dwarf outs ec pp firstMd5 (l1' ++ i :: l2) fs := by
        rw [List.cons_append, reconLoop, if_pos he0, if_pos h42]
      rw [hstep]
      exact ih fs he0 hei hmd (List.nodup_cons.mp hnd).2
        (fun h => hni (List.mem_cons_of_mem j0 h))
        (fun j hj' => hj j (List.mem_cons_of_mem j0 hj'))
        (fun j hj' => hd0 j (List.mem_cons_of_mem j0 hj'))
        (fun j hj' k hk' => hdl j (List.mem_cons_of_mem j0 hj') k
          (List.mem_cons_of_mem j0 hk'))
    · have hstep : reconLoop dg dwarf outs ec pp firstMd5 ((j0 :: l1') ++ i :: l2) fs =
          reconLoop dg dwarf outs ec pp firstMd5 (l1' ++ i :: l2)
            (unlinkOut dwarf fs (outs j0)) := by
        rw [List.cons_append, reconLoop, if_pos he0, if_neg (by rw [hzm.1]; decide),
          if_neg (by simp [hzm.1]), if_neg (by simp [hzm.2])]
      rw [hstep]
      have hfsi : unlinkOut dwarf fs (outs j0) (outs i) = fs (outs i) :=
        unlinkOut_ne dwarf fs (outs j0) (outs i)
          (Ne.symm hd0j.2.2.2.2.2.2.1) (Ne.symm hd0j.2.2.2.2.2.2.2)
      have hj' : ∀ j ∈ l1', ec j = 42 ∨ (ec j = 0 ∧
          md5_for_file dg (unlinkOut dwarf fs (outs j0)) (outs j) = firstMd5) := by
        intro j hjm
        rcases hj j (List.mem_cons_of_mem j0 hjm) with h | h
        · exact Or.inl h
        · refine Or.inr ⟨h.1, ?_⟩
          have hne := hdl j0 (List.mem_cons_self j0 l1') j
            (List.mem_cons_of_mem j0 hjm)
            (fun he => (List.nodup_cons.mp hnd).1 (he ▸ hjm))
          rw [md5_congr dg _ fs (outs j)
            (unlinkOut_ne dwarf fs (outs j0) (outs j) (Ne.symm hne.1) (Ne.symm hne.2))]
          exact h.2
      rcases ih (unlinkOut dwarf fs (outs j0)) he0 hei
          (by rw [md5_congr dg _ fs (outs i) hfsi]; exact hmd)
          (List.nodup_cons.mp hnd).2
          (fun h => hni (List.mem_cons_of_mem j0 h)) hj'
          (fun j hjm => hd0 j (List.mem_cons_of_mem j0 hjm))
          (fun j hjm k hkm => hdl j (List.mem_cons_of_mem j0 hjm) k
            (List.mem_cons_of_mem j0 hkm)) with ⟨fsb, heq, hb0, hbp, hbd⟩
      refine ⟨fsb, heq, ?_, ?_, ?_⟩
      · rw [hb0]
        exact unlinkOut_ne dwarf fs (outs j0) (outs 0)
          (Ne.symm hd0j.1) (Ne.symm hd0j.2.1)
      · rw [hbp]
        exact unlinkOut_ne dwarf fs (outs j0) pp
          (Ne.symm hd0j.2.2.1) (Ne.symm hd0j.2.2.2.1)
      · rw [hbd]
        exact unlinkOut_ne dwarf fs (outs j0) (dwoOf (outs 0))
          (Ne.symm hd0j.2.2.2.2.1) (Ne.symm hd0j.2.2.2.2.2.1)

lemma caughtState_eval (dwarf : Bool) (o0 pp : Str) (fs : FS) (c0 cp : FileData)
    (h0 : fs o0 = some c0) (hp : fs pp = some cp)
    (hppo : pp ≠ o0) (hppc : pp ≠ o0 ++ caughtSfx)
    (hppd : pp ≠ dwoOf o0) (hppdc : pp ≠ dwoOf o0 ++ caughtSfx)
    (ho0pc : o0 ≠ pp ++ caughtSfx) (ho0dc : o0 ≠ dwoOf o0 ++ caughtSfx)
    (hd0 : dwoOf o0 ≠ o0) :
    ((renameCaught dwarf o0 pp fs).erase pp) (o0 ++ caughtSfx) = some c0 ∧
    ((renameCaught dwarf o0 pp fs).erase pp) (pp ++ caughtSfx) = some cp ∧
    ((renameCaught dwarf o0 pp fs).erase pp) o0 = none ∧
    ((renameCaught dwarf o0 pp fs).erase pp) pp = none ∧
    (dwarf = true → ∀ cd, fs (dwoOf o0) = some cd →
      ((renameCaught dwarf o0 pp fs).erase pp) (dwoOf o0 ++ caughtSfx) = some cd ∧
      ((renameCaught dwarf o0 pp fs).erase pp) (dwoOf o0) = none) := by
  have ho0c : o0 ≠ o0 ++ caughtSfx := ne_append_self o0 caughtSfx (by decide)
  have hppc2 : pp ≠ pp ++ caughtSfx := ne_append_self pp caughtSfx (by decide)
  have hdwc : dwoOf o0 ≠ dwoOf o0 ++ caughtSfx :=
    ne_append_self (dwoOf o0) caughtSfx (by decide)
  have hcc : o0 ++ caughtSfx ≠ pp ++ caughtSfx := fun h => hppo (append_inj_r h).symm
  have hccd : o0 ++ caughtSfx ≠ dwoOf o0 ++ caughtSfx := fun h =>
    hd0 (append_inj_r h).symm
  have hpcd : pp ++ caughtSfx ≠ dwoOf o0 ++ caughtSfx := fun h =>
    hppd (append_inj_r h)
  have hdoc : dwoOf o0 ≠ o0 ++ caughtSfx := dwoOf_ne_append_caught o0 o0
  have hdpc : dwoOf o0 ≠ pp ++ caughtSfx := dwoOf_ne_append_caught o0 pp
  have e1 : fsRename fs o0 (o0 ++ caughtSfx) =
      (fs.erase o0).write (o0 ++ caughtSfx) c0 := by rw [fsRename, h0]
  have hf1p : ((fs.erase o0).write (o0 ++ caughtSfx) c0) pp = some cp := by
    rw [fsWrite_ne _ _ _ _ hppc, fsErase_ne _ _ _ hppo, hp]
  have e2 : fsRename ((fs.erase o0).write (o0 ++ caughtSfx) c0) pp (pp ++ caughtSfx) =
      (((fs.erase o0).write (o0 ++ caughtSfx) c0).erase pp).write (pp ++ caughtSfx)
        cp := by
    rw [fsRename, hf1p]
  have hrc : renameCaught dwarf o0 pp fs =
      (if dwarf = true then
        fsRename ((((fs.erase o0).write (o0 ++ caughtSfx) c0).erase pp).write
          (pp ++ caughtSfx) cp) (dwoOf o0) (dwoOf o0 ++ caughtSfx)
      else ((((fs.erase o0).write (o0 ++ caughtSfx) c0).erase pp).write
        (pp ++ caughtSfx) cp)) := by
    rw [renameCaught, e1, e2]
  have hf2d : ((((fs.erase o0).write (o0 ++ caughtSfx) c0).erase pp).write
      (pp ++ caughtSfx) cp) (dwoOf o0) = fs (dwoOf o0) := by
    rw [fsWrite_ne _ _ _ _ hdpc, fsErase_ne _ _ _ (Ne.symm hppd),
      fsWrite_ne _ _ _ _ hdoc, fsErase_ne _ _ _ hd0]
  cases dwarf with
  | false =>
    rw [hrc]
    simp only [Bool.false_eq_true, if_false]
    refine ⟨?_, ?_, ?_, ?_, fun h => absurd h (by decide)⟩
    · rw [fsErase_ne _ _ _ (Ne.symm hppc), fsWrite_ne _ _ _ _ hcc,
        fsErase_ne _ _ _ (Ne.symm hppc), fsWrite_eq]
    · rw [fsErase_ne _ _ _ (Ne.symm hppc2), fsWrite_eq]
    · rw [fsErase_ne _ _ _ (Ne.symm hppo), fsWrite_ne _ _ _ _ ho0pc,
        fsErase_ne _ _ _ hppo.symm]
      · rw [fsWrite_ne _ _ _ _ ho0c, fsErase_eq]
    · exact fsErase_eq _ _
  | true =>
    rw [hrc]
    simp only [if_true]
    cases hdv : fs (dwoOf o0) with
    | none =>
      have e3 : fsRename ((((fs.erase o0).write (o0 ++ caughtSfx) c0).erase pp).write
          (pp ++ caughtSfx) cp) (dwoOf o0) (dwoOf o0 ++ caughtSfx) =
          ((((fs.erase o0).write (o0 ++ caughtSfx) c0).erase pp).write
            (pp ++ caughtSfx) cp) := by
        rw [fsRename, hf2d, hdv]
      rw [e3]
      refine ⟨?_, ?_, ?_, ?_, ?_⟩
      · rw [fsErase_ne _ _ _ (Ne.symm hppc), fsWrite_ne _ _ _ _ hcc,
          fsErase_ne _ _ _ (Ne.symm hppc), fsWrite_eq]
      · rw [fsErase_ne _ _ _ (Ne.symm hppc2), fsWrite_eq]
      · rw [fsErase_ne _ _ _ (Ne.symm hppo), fsWrite_ne _ _ _ _ ho0pc,
          fsErase_ne _ _ _ hppo.symm, fsWrite_ne _ _ _ _ ho0c, fsErase_eq]
      · exact fsErase_eq _ _
      · intro h cd hcd
        exact Option.noConfusion hcd
    | some cd0 =>
      have e3 : fsRename ((((fs.erase o0).write (o0 ++ caughtSfx) c0).erase pp).write
          (pp ++ caughtSfx) cp) (dwoOf o0) (dwoOf o0 ++ caughtSfx) =
          (((((fs.erase o0).write (o0 ++ caughtSfx) c0).erase pp).write
            (pp ++ caughtSfx) cp).erase (dwoOf o0)).write (dwoOf o0 ++ caughtSfx)
            cd0 := by
        rw [fsRename, hf2d, hdv]
      rw [e3]
      refine ⟨?_, ?_, ?_, ?_, fun _ cd hcd => ?_⟩
      · rw [fsErase_ne _ _ _ (Ne.symm hppc), fsWrite_ne _ _ _ _ hccd,
          fsErase_ne _ _ _ (Ne.symm hdoc), fsWrite_ne _ _ _ _ hcc,
          fsErase_ne _ _ _ (Ne.symm hppc), fsWrite_eq]
      · rw [fsErase_ne _ _ _ (Ne.symm hppc2), fsWrite_ne _ _ _ _ hpcd,
          fsErase_ne _ _ _ (Ne.symm hdpc), fsWrite_eq]
      · rw [fsErase_ne _ _ _ (Ne.symm hppo), fsWrite_ne _ _ _ _ ho0dc,
          fsErase_ne _ _ _ (Ne.symm hd0), fsWrite_ne _ _ _ _ ho0pc,
          fsErase_ne _ _ _ hppo.symm, fsWrite_ne _ _ _ _ ho0c, fsErase_eq]
      · exact fsErase_eq _ _
      · have hc : cd = cd0 := (Option.some.inj hcd).symm
        subst hc
        constructor
        · rw [fsErase_ne _ _ _ (Ne.symm hppdc), fsWrite_eq]
        · rw [fsErase_ne _ _ _ (Ne.symm hppd), fsWrite_ne _ _ _ _ hdwc, fsErase_eq]

/-- C1 (amended): in replication mode, if slot 0 and slot i (i ≥ 1) both
finished with exit code 0 but slot i's digest differs from slot 0's, and
every earlier slot j (1 ≤ j < i) finished either with the sentinel code 42
or with exit code 0 and a digest equal to slot 0's (i.e. the loop reaches
slot i without aborting earlier), then the driver renames slot 0's output
to `<path>.caught`, renames the shared preprocessed temp file to
`<preproc>.caught` (and the `.dwo` sidecar likewise when dwarf fission is
enabled), and `build_remote` returns −1.  The path-distinctness hypotheses
say that the replica outputs, their `.dwo` sidecars, the preprocessed temp
file and the `.caught` names are pairwise different files, as they are in a
real run. -/
theorem replication_md5_mismatch_caught (dg : List Nat → Nat → Nat) (dwarf : Bool)
    (outs : Nat → Str) (pp : Str) (n : Nat) (o : RepOracle) (fs : FS) (i : Nat)
    (c0 cp : FileData)
    (hcpp : o.cppForkOk = true) (hcx : o.cppExit = 0) (hgc : o.sendGetcsOk = true)
    (hgs : o.getServersOk = true)
    (hi1 : 1 ≤ i) (hin : i < n)
    (hm : (reapLoop o.reaps ec42).2 = false)
    (he0 : (reapLoop o.reaps ec42).1 0 = 0)
    (hei : (reapLoop o.reaps ec42).1 i = 0)
    (hprior : ∀ j, j < i → 1 ≤ j → ((reapLoop o.reaps ec42).1 j = 42 ∨
      ((reapLoop o.reaps ec42).1 j = 0 ∧
        md5_for_file dg fs (outs j) = md5_for_file dg fs (outs 0))))
    (hmd : md5_for_file dg fs (outs i) ≠ md5_for_file dg fs (outs 0))
    (hD : ∀ j, j < n → ∀ k, k < n → j ≠ k → outs j ≠ outs k)
    (hD2 : ∀ j, j < n → ∀ k, k < n → dwoOf (outs j) ≠ outs k)
    (hD3 : ∀ j, j < n → ∀ k, k < n → j ≠ k → dwoOf (outs j) ≠ dwoOf (outs k))
    (hPp : ∀ j, j < n → pp ≠ outs j ∧ pp ≠ dwoOf (outs j))
    (hPc1 : pp ≠ outs 0 ++ caughtSfx) (hPc2 : pp ≠ dwoOf (outs 0) ++ caughtSfx)
    (hO1 : outs 0 ≠ pp ++ caughtSfx) (hO2 : outs 0 ≠ dwoOf (outs 0) ++ caughtSfx)
    (hx0 : fs (outs 0) = some c0) (hxp : fs pp = some cp) :
    (buildRemoteRep dg dwarf outs pp n o fs).2 = Except.ok (-1) ∧
    (buildRemoteRep dg dwarf outs pp n o fs).1 (outs 0 ++ caughtSfx) = some c0 ∧
    (buildRemoteRep dg dwarf outs pp n o fs).1 (pp ++ caughtSfx) = some cp ∧
    (buildRemoteRep dg dwarf outs pp n o fs).1 (outs 0) = none ∧
    (buildRemoteRep dg dwarf outs pp n o fs).1 pp = none ∧
    (dwarf = true → ∀ cd, fs (dwoOf (outs 0)) = some cd →
      (buildRemoteRep dg dwarf outs pp n o fs).1 (dwoOf (outs 0) ++ caughtSfx) =
        some cd ∧
      (buildRemoteRep dg dwarf outs pp n o fs).1 (dwoOf (outs 0)) = none) := by
  have h0n : 0 < n := by omega
  have hbr : buildRemoteRep dg dwarf outs pp n o fs =
      reconcile dg dwarf outs (reapLoop o.reaps ec42).1 (reapLoop o.reaps ec42).2
        pp n fs := by
    simp [buildRemoteRep, hcpp, hcx, hgc, hgs]
  have e1 : 1 + (i - 1) = i := by omega
  have e2 : (n - i - 1) + 1 = n - i := by omega
  have e3 : (n - i) + (i - 1) = n - 1 := by omega
  have hsplit : List.range' 1 (n - 1) =
      List.range' 1 (i - 1) ++ i :: List.range' (i + 1) (n - i - 1) := by
    calc List.range' 1 (n - 1)
        = List.range' 1 ((n - i) + (i - 1)) := by rw [e3]
      _ = List.range' 1 (i - 1) ++ List.range' (1 + (i - 1)) (n - i) :=
          (List.range'_append_1 1 (i - 1) (n - i)).symm
      _ = List.range' 1 (i - 1) ++ List.range' i ((n - i - 1) + 1) := by rw [e1, e2]
      _ = List.range' 1 (i - 1) ++ (i :: List.range' (i + 1) (n - i - 1)) := by
          rw [List.range'_succ]
  have hbnd : ∀ j ∈ List.range' 1 (i - 1), 1 ≤ j ∧ j < i := by
    intro j hjm
    have := List.mem_range'_1.mp hjm
    omega
  have hni : i ∉ List.range' 1 (i - 1) := by
    intro hmem
    have := List.mem_range'_1.mp hmem
    omega
  rcases reconLoop_break dg dwarf outs (reapLoop o.reaps ec42).1 pp
      (md5_for_file dg fs (outs 0)) i (List.range' (i + 1) (n - i - 1))
      (List.range' 1 (i - 1)) fs he0 hei hmd (List.nodup_range' 1 (i - 1)) hni
      (fun j hjm => hprior j (hbnd j hjm).2 (hbnd j hjm).1)
      (fun j hjm => by
        have hb := hbnd j hjm
        have hjn : j < n := by omega
        exact ⟨hD j hjn 0 h0n (by omega), hD2 j hjn 0 h0n,
          (hPp j hjn).1.symm, (hPp j hjn).2.symm,
          (hD2 0 h0n j hjn).symm, hD3 j hjn 0 h0n (by omega),
          hD j hjn i hin (by omega), hD2 j hjn i hin⟩)
      (fun j hjm k hkm hjk => by
        have hbj := hbnd j hjm
        have hbk := hbnd k hkm
        exact ⟨hD j (by omega) k (by omega) hjk, hD2 j (by omega) k (by omega)⟩)
    with ⟨fsb, heval, hb0, hbp, hbd⟩
  have hR : buildRemoteRep dg dwarf outs pp n o fs =
      ((renameCaught dwarf (outs 0) pp fsb).erase pp, Except.ok (-1)) := by
    rw [hbr, hm, reconcile_not_misc, hsplit, heval]
  have hcse := caughtState_eval dwarf (outs 0) pp fsb c0 cp
    (hb0.trans hx0) (hbp.trans hxp) (hPp 0 h0n).1 hPc1 (hPp 0 h0n).2 hPc2
    hO1 hO2 (hD2 0 h0n 0 h0n)
  rw [hR]
  refine ⟨rfl, hcse.1, hcse.2.1, hcse.2.2.1, hcse.2.2.2.1, ?_⟩
  intro hdw cd hcd
  exact hcse.2.2.2.2 hdw cd (hbd.trans hcd)

theorem replication_md5_mismatch_caught_witness :
    (buildRemoteRep (fun c _ => if c = [1] then 0 else 1) false
      (fun j => if j = 0 then "a.o".toList else if j = 1 then "b.o".toList
        else "c.o".toList)
      ("pp.ix".toList) 3 ⟨true, 0, true, true, [(0, some 0), (1, some 0), (2, some 0)]⟩
      (fun s => if s = "pp.ix".toList then some ⟨[9], 438⟩
        else if s = "b.o".toList then some ⟨[2], 438⟩ else some ⟨[1], 438⟩)).2 =
      Except.ok (-1) ∧
    (buildRemoteRep (fun c _ => if c = [1] then 0 else 1) false
      (fun j => if j = 0 then "a.o".toList else if j = 1 then "b.o".toList
        else "c.o".toList)
      ("pp.ix".toList) 3 ⟨true, 0, true, true, [(0, some 0), (1, some 0), (2, some 0)]⟩
      (fun s => if s = "pp.ix".toList then some ⟨[9], 438⟩
        else if s = "b.o".toList then some ⟨[2], 438⟩ else some ⟨[1], 438⟩)).1
      ("a.o".toList ++ caughtSfx) = some ⟨[1], 438⟩ ∧
    (buildRemoteRep (fun c _ => if c = [1] then 0 else 1) false
      (fun j => if j = 0 then "a.o".toList else if j = 1 then "b.o".toList
        else "c.o".toList)
      ("pp.ix".toList) 3 ⟨true, 0, true, true, [(0, some 0), (1, some 0), (2, some 0)]⟩
      (fun s => if s = "pp.ix".toList then some ⟨[9], 438⟩
        else if s = "b.o".toList then some ⟨[2], 438⟩ else some ⟨[1], 438⟩)).1
      ("pp.ix".toList ++ caughtSfx) = some ⟨[9], 438⟩ ∧
    (buildRemoteRep (fun c _ => if c = [1] then 0 else 1) false
      (fun j => if j = 0 then "a.o".toList else if j = 1 then "b.o".toList
        else "c.o".toList)
      ("pp.ix".toList) 3 ⟨true, 0, true, true, [(0, some 0), (1, some 0), (2, some 0)]⟩
      (fun s => if s = "pp.ix".toList then some ⟨[9], 438⟩
        else if s = "b.o".toList then some ⟨[2], 438⟩ else some ⟨[1], 438⟩)).1
      ("a.o".toList) = none ∧
    (buildRemoteRep (fun c _ => if c = [1] then 0 else 1) false
      (fun j => if j = 0 then "a.o".toList else if j = 1 then "b.o".toList
        else "c.o".toList)
      ("pp.ix".toList) 3 ⟨true, 0, true, true, [(0, some 0), (1, some 0), (2, some 0)]⟩
      (fun s => if s = "pp.ix".toList then some ⟨[9], 438⟩
        else if s = "b.o".toList then some ⟨[2], 438⟩ else some ⟨[1], 438⟩)).1
      ("pp.ix".toList) = none ∧
    ((false : Bool) = true → ∀ cd,
      (fun s => if s = "pp.ix".toList then some ⟨[9], 438⟩
        else if s = "b.o".toList then some ⟨[2], 438⟩
        else some ⟨[1], 438⟩ : FS)
        (dwoOf ("a.o".toList)) = some cd →
      (buildRemoteRep (fun c _ => if c = [1] then 0 else 1) false
        (fun j => if j = 0 then "a.o".toList else if j = 1 then "b.o".toList
          else "c.o".toList)
        ("pp.ix".toList) 3
        ⟨true, 0, true, true, [(0, some 0), (1, some 0), (2, some 0)]⟩
        (fun s => if s = "pp.ix".toList then some ⟨[9], 438⟩
          else if s = "b.o".toList then some ⟨[2], 438⟩ else some ⟨[1], 438⟩)).1
        (dwoOf ("a.o".toList) ++ caughtSfx) = some cd ∧
      (buildRemoteRep (fun c _ => if c = [1] then 0 else 1) false
        (fun j => if j = 0 then "a.o".toList else if j = 1 then "b.o".toList
          else "c.o".toList)
        ("pp.ix".toList) 3
        ⟨true, 0, true, true, [(0, some 0), (1, some 0), (2, some 0)]⟩
        (fun s => if s = "pp.ix".toList then some ⟨[9], 438⟩
          else if s = "b.o".toList then some ⟨[2], 438⟩ else some ⟨[1], 438⟩)).1
        (dwoOf ("a.o".toList)) = none) :=
  replication_md5_mismatch_caught (fun c _ => if c = [1] then 0 else 1) false
    (fun j => if j = 0 then "a.o".toList else if j = 1 then "b.o".toList
      else "c.o".toList)
    ("pp.ix".toList) 3 ⟨true, 0, true, true, [(0, some 0), (1, some 0), (2, some 0)]⟩
    (fun s => if s = "pp.ix".toList then some ⟨[9], 438⟩
      else if s = "b.o".toList then some ⟨[2], 438⟩ else some ⟨[1], 438⟩)
    1 ⟨[1], 438⟩ ⟨[9], 438⟩ rfl rfl rfl rfl (by decide) (by decide) (by decide)
    (by decide) (by decide) (by decide) (by decide) (by decide) (by decide)
    (by decide) (by decide) (by decide) (by decide) (by decide) (by decide)
    (by decide) (by decide)

/-- C1 counterexample: slots 0 and 2 both exited 0 and their digests
differ, but slot 1 exited with code 5, so the loop aborts at slot 1 by
unlinking the slot-0 output: `build_remote` returns −1 yet neither
`<path>.caught` nor `<preproc>.caught` is created, refuting the claim as
universally stated over all pairs. -/
theorem replication_md5_mismatch_not_caught :
    (reapLoop [(0, some 0), (1, some 5), (2, some 0)] ec42).1 0 = 0 ∧
    (reapLoop [(0, some 0), (1, some 5), (2, some 0)] ec42).1 2 = 0 ∧
    (reapLoop [(0, some 0), (1, some 5), (2, some 0)] ec42).2 = false ∧
    md5_for_file (fun c _ => if c = [1] then 0 else 1)
      (fun s => if s = "pp.ix".toList then some ⟨[9], 438⟩
        else if s = "c.o".toList then some ⟨[2], 438⟩
        else if s = "a.o".toList then some ⟨[1], 438⟩ else none)
      ("c.o".toList) ≠
    md5_for_file (fun c _ => if c = [1] then 0 else 1)
      (fun s => if s = "pp.ix".toList then some ⟨[9], 438⟩
        else if s = "c.o".toList then some ⟨[2], 438⟩
        else if s = "a.o".toList then some ⟨[1], 438⟩ else none)
      ("a.o".toList) ∧
    (fun s => if s = "pp.ix".toList then some ⟨[9], 438⟩
      else if s = "c.o".toList then some ⟨[2], 438⟩
      else if s = "a.o".toList then some ⟨[1], 438⟩ else none : FS)
      ("a.o".toList) = some ⟨[1], 438⟩ ∧
    (buildRemoteRep (fun c _ => if c = [1] then 0 else 1) false
      (fun j => if j = 0 then "a.o".toList else if j = 1 then "b.o".toList
        else "c.o".toList)
      ("pp.ix".toList) 3 ⟨true, 0, true, true, [(0, some 0), (1, some 5), (2, some 0)]⟩
      (fun s => if s = "pp.ix".toList then some ⟨[9], 438⟩
        else if s = "c.o".toList then some ⟨[2], 438⟩
        else if s = "a.o".toList then some ⟨[1], 438⟩ else none)).2 =
      Except.ok (-1) ∧
    (buildRemoteRep (fun c _ => if c = [1] then 0 else 1) false
      (fun j => if j = 0 then "a.o".toList else if j = 1 then "b.o".toList
        else "c.o".toList)
      ("pp.ix".toList) 3 ⟨true, 0, true, true, [(0, some 0), (1, some 5), (2, some 0)]⟩
      (fun s => if s = "pp.ix".toList then some ⟨[9], 438⟩
        else if s = "c.o".toList then some ⟨[2], 438⟩
        else if s = "a.o".toList then some ⟨[1], 438⟩ else none)).1
      ("a.o".toList ++ caughtSfx) = none ∧
    (buildRemoteRep (fun c _ => if c = [1] then 0 else 1) false
      (fun j => if j = 0 then "a.o".toList else if j = 1 then "b.o".toList
        else "c.o".toList)
      ("pp.ix".toList) 3 ⟨true, 0, true, true, [(0, some 0), (1, some 5), (2, some 0)]⟩
      (fun s => if s = "pp.ix".toList then some ⟨[9], 438⟩
        else if s = "c.o".toList then some ⟨[2], 438⟩
        else if s = "a.o".toList then some ⟨[1], 438⟩ else none)).1
      ("pp.ix".toList ++ caughtSfx) = none := by
  refine ⟨rfl, rfl, rfl, by decide, by decide, rfl, by decide, by decide⟩

lemma pfxOf_length_le (p : Str) : ∀ u : Str, pfxOf p u = true → p.length ≤ u.length := by
  induction p with
  | nil => intro u _; simp
  | cons a as ih =>
    intro u h
    cases u with
    | nil => simp [pfxOf] at h
    | cons b bs =>
      rw [pfxOf] at h
      by_cases hab : a = b
      · rw [if_pos hab] at h
        simpa using ih bs h
      · rw [if_neg hab] at h
        exact absurd h (by decide)

lemma pfxOf_append (p : Str) : ∀ u : Str, pfxOf p u = true → u = p ++ u.drop p.length := by
  induction p with
  | nil => intro u _; simp
  | cons a as ih =>
    intro u h
    cases u with
    | nil => simp [pfxOf] at h
    | cons b bs =>
      rw [pfxOf] at h
      by_cases hab : a = b
      · rw [if_pos hab] at h
        subst hab
        simpa using ih bs h
      · rw [if_neg hab] at h
        exact absurd h (by decide)

lemma replFirst_some (pat rep : Str) :
    ∀ s t : Str, replFirst pat rep s = some t →
    ∃ a b : Str, s = a ++ pat ++ b ∧ t = a ++ rep ++ b := by
  intro s
  induction s with
  | nil => intro t h; simp [replFirst] at h
  | cons c s' ih =>
    intro t h
    rw [replFirst] at h
    by_cases hp : pfxOf pat (c :: s') = true
    · rw [if_pos hp] at h
      refine ⟨[], (c :: s').drop pat.length, ?_, ?_⟩
      · simpa using pfxOf_append pat (c :: s') hp
      · simpa using (Option.some.inj h).symm
    · rw [if_neg hp] at h
      cases hr : replFirst pat rep s' with
      | none => rw [hr] at h; exact Option.noConfusion h
      | some t' =>
        rw [hr] at h
        rcases ih t' hr with ⟨a, b, hs, ht⟩
        refine ⟨c :: a, b, by simp [hs], ?_⟩
        rw [← Option.some.inj h, ht]
        simp

lemma replFirst_length (pat rep : Str) (hlt : rep.length < pat.length) :
    ∀ s t : Str, replFirst pat rep s = some t → t.length < s.length := by
  intro s t h
  rcases replFirst_some pat rep s t h with ⟨a, b, hs, ht⟩
  rw [hs, ht]
  simp only [List.length_append]
  omega

lemma replFirst_none_iff (pat rep : Str) (hpat : pat ≠ []) :
    ∀ s : Str, replFirst pat rep s = none ↔ hasSub pat s = false := by
  intro s
  induction s with
  | nil =>
    simp only [replFirst, hasSub, true_iff]
    cases pat with
    | nil => exact absurd rfl hpat
    | cons a as => simp [pfxOf]
  | cons c s' ih =>
    rw [replFirst, hasSub]
    by_cases hp : pfxOf pat (c :: s') = true
    · rw [if_pos hp, hp]
      simp
    · rw [if_neg hp]
      have hp' : pfxOf pat (c :: s') = false := by
        cases hpv : pfxOf pat (c :: s')
        · rfl
        · exact absurd hpv hp
      rw [hp']
      simp only [Bool.false_or]
      cases hr : replFirst pat rep s' with
      | none => simpa [hr] using ih.mp hr
      | some t' =>
        simp only [hr]
        constructor
        · intro h; exact Option.noConfusion h
        · intro h
          have := ih.mpr h
          rw [this] at hr
          exact Option.noConfusion hr

lemma hasSub_append_right (p : Str) (a : Str) :
    ∀ b : Str, hasSub p b = true → hasSub p (a ++ b) = true := by
  induction a with
  | nil => intro b h; simpa using h
  | cons c a' ih =>
    intro b h
    rw [List.cons_append, hasSub, ih b h]
    simp

lemma hasSub_cons (pat : Str) (c : Char) (s : Str) :
    hasSub pat (c :: s) = (pfxOf pat (c :: s) || hasSub pat s) := rfl

lemma pfxOf_cons (a : Char) (as : Str) (b : Char) (bs : Str) :
    pfxOf (a :: as) (b :: bs) = if a = b then pfxOf as bs else false := rfl

lemma hasSub_cons_split (pat : Str) (c : Char) (s : Str)
    (h : hasSub pat (c :: s) = true) :
    pfxOf pat (c :: s) = true ∨ hasSub pat s = true := by
  rw [hasSub_cons] at h
  cases hpx : pfxOf pat (c :: s)
  · rw [hpx] at h
    simp only [Bool.false_or] at h
    exact Or.inr h
  · exact Or.inl rfl

lemma sub_dd_of_ds (a b : Str) (h : hasSub ddP (a ++ slashS ++ b) = true) :
    hasSub ddP (a ++ dsP ++ b) = true := by
  induction a with
  | nil =>
    simp only [List.nil_append, slashS, List.singleton_append] at h
    rcases hasSub_cons_split ddP '/' b h with h1 | h2
    · rw [ddP, pfxOf_cons, if_pos rfl] at h1
      have hb := pfxOf_append ['.', '.'] b h1
      rw [List.nil_append, hb]
      simp [dsP, hasSub, pfxOf, ddP, hasSub_cons, pfxOf_cons]
    · rw [List.nil_append]
      exact hasSub_append_right ddP dsP b h2
  | cons c a' ih =>
    simp only [List.cons_append] at h
    rcases hasSub_cons_split ddP c (a' ++ slashS ++ b) h with h1 | h2
    · by_cases hc : c = '/'
      · subst hc
        rw [ddP, pfxOf_cons, if_pos rfl] at h1
        cases a' with
        | nil =>
          simp only [List.nil_append, slashS, List.singleton_append] at h1
          simp [pfxOf_cons] at h1
        | cons d a'' =>
          simp only [List.cons_append] at h1
          by_cases hd : ('.' : Char) = d
          · rw [pfxOf_cons, if_pos hd] at h1
            cases a'' with
            | nil =>
              simp only [List.nil_append, slashS, List.singleton_append] at h1
              simp [pfxOf_cons] at h1
            | cons e a''' =>
              simp only [List.cons_append] at h1
              by_cases he : ('.' : Char) = e
              · subst hd
                subst he
                simp [hasSub_cons, pfxOf_cons, ddP, pfxOf]
              · rw [pfxOf_cons, if_neg he] at h1
                exact absurd h1 (by decide)
          · rw [pfxOf_cons, if_neg hd] at h1
            exact absurd h1 (by decide)
      · rw [ddP, pfxOf_cons, if_neg (fun hh : '/' = c => hc hh.symm)] at h1
        exact absurd h1 (by decide)
    · simp only [List.cons_append, hasSub_cons, ih h2]
      simp

lemma sub_dd_of_ss (a b : Str) (h : hasSub ddP (a ++ slashS ++ b) = true) :
    hasSub ddP (a ++ ssP ++ b) = true := by
  induction a with
  | nil =>
    simp only [List.nil_append, slashS, List.singleton_append] at h
    rcases hasSub_cons_split ddP '/' b h with h1 | h2
    · rw [ddP, pfxOf_cons, if_pos rfl] at h1
      have hb := pfxOf_append ['.', '.'] b h1
      rw [List.nil_append, hb]
      simp [ssP, hasSub, pfxOf, ddP, hasSub_cons, pfxOf_cons]
    · rw [List.nil_append]
      exact hasSub_append_right ddP ssP b h2
  | cons c a' ih =>
    simp only [List.cons_append] at h
    rcases hasSub_cons_split ddP c (a' ++ slashS ++ b) h with h1 | h2
    · by_cases hc : c = '/'
      · subst hc
        rw [ddP, pfxOf_cons, if_pos rfl] at h1
        cases a' with
        | nil =>
          simp only [List.nil_append, slashS, List.singleton_append] at h1
          simp [pfxOf_cons] at h1
        | cons d a'' =>
          simp only [List.cons_append] at h1
          by_cases hd : ('.' : Char) = d
          · rw [pfxOf_cons, if_pos hd] at h1
            cases a'' with
            | nil =>
              simp only [List.nil_append, slashS, List.singleton_append] at h1
              simp [pfxOf_cons] at h1
            | cons e a''' =>
              simp only [List.cons_append] at h1
              by_cases he : ('.' : Char) = e
              · subst hd
                subst he
                simp [hasSub_cons, pfxOf_cons, ddP, pfxOf]
              · rw [pfxOf_cons, if_neg he] at h1
                exact absurd h1 (by decide)
          · rw [pfxOf_cons, if_neg hd] at h1
            exact absurd h1 (by decide)
      · rw [ddP, pfxOf_cons, if_neg (fun hh : '/' = c => hc hh.symm)] at h1
        exact absurd h1 (by decide)
    · simp only [List.cons_append, hasSub_cons, ih h2]
      simp

lemma sub_ds_of_ss (a b : Str) (h : hasSub dsP (a ++ slashS ++ b) = true) :
    hasSub dsP (a ++ ssP ++ b) = true := by
  induction a with
  | nil =>
    simp only [List.nil_append, slashS, List.singleton_append] at h
    rcases hasSub_cons_split dsP '/' b h with h1 | h2
    · rw [dsP, pfxOf_cons, if_pos rfl] at h1
      have hb := pfxOf_append ['.', '/'] b h1
      rw [List.nil_append, hb]
      simp [ssP, hasSub, pfxOf, dsP, hasSub_cons, pfxOf_cons]
    · rw [List.nil_append]
      exact hasSub_append_right dsP ssP b h2
  | cons c a' ih =>
    simp only [List.cons_append] at h
    rcases hasSub_cons_split dsP c (a' ++ slashS ++ b) h with h1 | h2
    · by_cases hc : c = '/'
      · subst hc
        rw [dsP, pfxOf_cons, if_pos rfl] at h1
        cases a' with
        | nil =>
          simp only [List.nil_append, slashS, List.singleton_append] at h1
          simp [pfxOf_cons] at h1
        | cons d a'' =>
          simp only [List.cons_append] at h1
          by_cases hd : ('.' : Char) = d
          · rw [pfxOf_cons, if_pos hd] at h1
            cases a'' with
            | nil =>
              subst hd
              simp [ssP, hasSub_cons, pfxOf_cons, dsP, pfxOf]
            | cons e a''' =>
              simp only [List.cons_append] at h1
              by_cases he : ('/' : Char) = e
              · subst hd
                subst he
                simp [hasSub_cons, pfxOf_cons, dsP, pfxOf]
              · rw [pfxOf_cons, if_neg he] at h1
                exact absurd h1 (by decide)
          · rw [pfxOf_cons, if_neg hd] at h1
            exact absurd h1 (by decide)
      · rw [dsP, pfxOf_cons, if_neg (fun hh : '/' = c => hc hh.symm)] at h1
        exact absurd h1 (by decide)
    · simp only [List.cons_append, hasSub_cons, ih h2]
      simp

lemma replLoopF_inv (pat rep : Str) (P : Str → Prop)
    (hstep : ∀ s t, replFirst pat rep s = some t → P s → P t) :
    ∀ (fuel : Nat) (s : Str), P s → P (replLoopF pat rep fuel s) := by
  intro fuel
  induction fuel with
  | zero => intro s h; exact h
  | succ f ih =>
    intro s h
    cases hr : replFirst pat rep s with
    | none => rw [replLoopF, hr]; exact h
    | some t => rw [replLoopF, hr]; exact ih t (hstep s t hr h)

lemma replLoopF_fix (pat rep : Str) (hlt : rep.length < pat.length) :
    ∀ (fuel : Nat) (s : Str), s.length ≤ fuel →
    replFirst pat rep (replLoopF pat rep fuel s) = none := by
  intro fuel
  induction fuel with
  | zero =>
    intro s hs
    have hnil : s = [] := List.length_eq_zero.mp (Nat.le_zero.mp hs)
    subst hnil
    rfl
  | succ f ih =>
    intro s hs
    cases hr : replFirst pat rep s with
    | none => rw [replLoopF, hr]; exact hr
    | some t =>
      rw [replLoopF, hr]
      exact ih t (by have := replFirst_length pat rep hlt s t hr; omega)

lemma replLoopF_id (pat rep : Str) (fuel : Nat) (s : Str)
    (h : replFirst pat rep s = none) : replLoopF pat rep fuel s = s := by
  cases fuel with
  | zero => rfl
  | succ f => rw [replLoopF, h]

lemma replFirst_head (pat : Str) (s t : Str) (h : replFirst pat slashS s = some t)
    (hs : s.head? = some '/') : t.head? = some '/' := by
  rcases replFirst_some pat slashS s t h with ⟨a, b, hsd, htd⟩
  cases a with
  | nil =>
    rw [htd]
    simp [slashS]
  | cons x a' =>
    rw [hsd] at hs
    rw [htd]
    simp only [List.cons_append, List.head?_cons] at hs ⊢
    exact hs

lemma replLoopF_head (pat : Str) (fuel : Nat) (s : Str) (hs : s.head? = some '/') :
    (replLoopF pat slashS fuel s).head? = some '/' :=
  replLoopF_inv pat slashS (fun u => u.head? = some '/')
    (fun u t ht hh => replFirst_head pat u t ht hh) fuel s hs

lemma dsLoop_keeps_no_dd (s : Str) (h : hasSub ddP s = false) :
    hasSub ddP (dsLoop s) = false := by
  refine replLoopF_inv dsP slashS (fun u => hasSub ddP u = false) ?_ s.length s h
  intro u t hr hu
  rcases replFirst_some dsP slashS u t hr with ⟨a, b, hud, htd⟩
  rw [htd]
  cases hx : hasSub ddP (a ++ slashS ++ b) with
  | false => rfl
  | true =>
    have := sub_dd_of_ds a b hx
    rw [← hud, hu] at this
    exact absurd this (by decide)

lemma ssLoop_keeps_no_dd (s : Str) (h : hasSub ddP s = false) :
    hasSub ddP (ssLoop s) = false := by
  refine replLoopF_inv ssP slashS (fun u => hasSub ddP u = false) ?_ s.length s h
  intro u t hr hu
  rcases replFirst_some ssP slashS u t hr with ⟨a, b, hud, htd⟩
  rw [htd]
  cases hx : hasSub ddP (a ++ slashS ++ b) with
  | false => rfl
  | true =>
    have := sub_dd_of_ss a b hx
    rw [← hud, hu] at this
    exact absurd this (by decide)

lemma ssLoop_keeps_no_ds (s : Str) (h : hasSub dsP s = false) :
    hasSub dsP (ssLoop s) = false := by
  refine replLoopF_inv ssP slashS (fun u => hasSub dsP u = false) ?_ s.length s h
  intro u t hr hu
  rcases replFirst_some ssP slashS u t hr with ⟨a, b, hud, htd⟩
  rw [htd]
  cases hx : hasSub dsP (a ++ slashS ++ b) with
  | false => rfl
  | true =>
    have := sub_ds_of_ss a b hx
    rw [← hud, hu] at this
    exact absurd this (by decide)

lemma hasSub_false_of_fix (pat rep : Str) (hpat : pat ≠ []) (fuel : Nat) (s : Str)
    (hfix : replFirst pat rep (replLoopF pat rep fuel s) = none) :
    hasSub pat (replLoopF pat rep fuel s) = false :=
  (replFirst_none_iff pat rep hpat (replLoopF pat rep fuel s)).mp hfix

/-- C7: the path canonicaliser is idempotent: applying `get_absfilename` to
its own result returns it unchanged, for every input path, provided the
current working directory is an absolute path (as `getcwd` guarantees).
The result of a first application is non-empty, starts with `'/'`, and
contains none of the patterns `"/.."`, `"/./"`, `"//"`, so every rewrite
loop of the second application is the identity. -/
theorem get_absfilename_idempotent (cwd f : Str) (hcwd : cwd.head? = some '/') :
    get_absfilename cwd (get_absfilename cwd f) = get_absfilename cwd f := by
  by_cases hf : f = []
  · subst hf; rfl
  · have hf0 : (if f.head? = some '/' then f else cwd ++ '/' :: f).head? = some '/' := by
      by_cases hh : f.head? = some '/'
      · rw [if_pos hh]; exact hh
      · rw [if_neg hh]
        cases cwd with
        | nil => simp at hcwd
        | cons x c' =>
          simp only [List.cons_append, List.head?_cons] at hcwd ⊢
          exact hcwd
    set f0 := if f.head? = some '/' then f else cwd ++ '/' :: f with hf0def
    have hdd1 : hasSub ddP (ddLoop f0) = false :=
      hasSub_false_of_fix ddP slashS (by decide) f0.length f0
        (replLoopF_fix ddP slashS (by decide) f0.length f0 le_rfl)
    have hdd2 : hasSub ddP (dsLoop (ddLoop f0)) = false := dsLoop_keeps_no_dd _ hdd1
    have hds2 : hasSub dsP (dsLoop (ddLoop f0)) = false :=
      hasSub_false_of_fix dsP slashS (by decide) (ddLoop f0).length (ddLoop f0)
        (replLoopF_fix dsP slashS (by decide) (ddLoop f0).length (ddLoop f0) le_rfl)
    have hdd3 : hasSub ddP (ssLoop (dsLoop (ddLoop f0))) = false :=
      ssLoop_keeps_no_dd _ hdd2
    have hds3 : hasSub dsP (ssLoop (dsLoop (ddLoop f0))) = false :=
      ssLoop_keeps_no_ds _ hds2
    have hss3 : hasSub ssP (ssLoop (dsLoop (ddLoop f0))) = false :=
      hasSub_false_of_fix ssP slashS (by decide) (dsLoop (ddLoop f0)).length
        (dsLoop (ddLoop f0))
        (replLoopF_fix ssP slashS (by decide) (dsLoop (ddLoop f0)).length
          (dsLoop (ddLoop f0)) le_rfl)
    have hh1 : (ddLoop f0).head? = some '/' := replLoopF_head ddP f0.length f0 hf0
    have hh2 : (dsLoop (ddLoop f0)).head? = some '/' :=
      replLoopF_head dsP (ddLoop f0).length (ddLoop f0) hh1
    have hh3 : (ssLoop (dsLoop (ddLoop f0))).head? = some '/' :=
      replLoopF_head ssP (dsLoop (ddLoop f0)).length (dsLoop (ddLoop f0)) hh2
    have hr : get_absfilename cwd f = ssLoop (dsLoop (ddLoop f0)) := by
      rw [get_absfilename, if_neg hf]
    rw [hr]
    have hrne : ssLoop (dsLoop (ddLoop f0)) ≠ [] := by
      intro he
      rw [he] at hh3
      exact Option.noConfusion hh3
    rw [get_absfilename, if_neg hrne, if_pos hh3]
    have e1 : ddLoop (ssLoop (dsLoop (ddLoop f0))) = ssLoop (dsLoop (ddLoop f0)) :=
      replLoopF_id ddP slashS (ssLoop (dsLoop (ddLoop f0))).length _
        ((replFirst_none_iff ddP slashS (by decide) _).mpr hdd3)
    rw [e1]
    have e2 : dsLoop (ssLoop (dsLoop (ddLoop f0))) = ssLoop (dsLoop (ddLoop f0)) :=
      replLoopF_id dsP slashS (ssLoop (dsLoop (ddLoop f0))).length _
        ((replFirst_none_iff dsP slashS (by decide) _).mpr hds3)
    rw [e2]
    exact replLoopF_id ssP slashS (ssLoop (dsLoop (ddLoop f0))).length _
      ((replFirst_none_iff ssP slashS (by decide) _).mpr hss3)

theorem get_absfilename_idempotent_witness :
    ("/w".toList).head? = some '/' ∧
    get_absfilename ("/w".toList)
        (get_absfilename ("/w".toList) ("a/..//b/./c".toList)) =
      get_absfilename ("/w".toList) ("a/..//b/./c".toList) :=
  ⟨by decide, get_absfilename_idempotent ("/w".toList) ("a/..//b/./c".toList)
    (by decide)⟩

lemma parseLoop_checks (o : FsInfo) (tp pfx : Str) (defT : Bool) :
    ∀ (items plats : List Str), ∀ pv ∈ parseLoop o tp pfx defT items plats,
    o.accOk pv.2 = true ∧
    ∃ st, o.lst pv.2 = some st ∧ st.isReg = true ∧ 500 ≤ st.size := by
  intro items
  induction items with
  | nil => intro plats pv h; exact absurd h (List.not_mem_nil pv)
  | cons couple rest ih =>
    intro plats pv h
    cases hip : itemPlatVer tp pfx defT couple with
    | none =>
      simp only [parseLoop, hip] at h
      exact ih plats pv h
    | some pr =>
      rcases pr with ⟨plat, ver⟩
      simp only [parseLoop, hip] at h
      by_cases hmem : plat ∈ plats
      · rw [if_pos hmem] at h; exact ih plats pv h
      · rw [if_neg hmem] at h
        by_cases hacc : o.accOk ver = false
        · rw [if_pos hacc] at h; exact ih plats pv h
        · rw [if_neg hacc] at h
          cases hls : o.lst ver with
          | none => simp only [hls] at h; exact ih plats pv h
          | some st =>
            simp only [hls] at h
            by_cases hreg : st.isReg = false
            · rw [if_pos hreg] at h; exact ih plats pv h
            · rw [if_neg hreg] at h
              by_cases hsz : st.size < 500
              · rw [if_pos hsz] at h; exact ih plats pv h
              · rw [if_neg hsz] at h
                rcases List.mem_cons.mp h with he | hm
                · subst he
                  refine ⟨by simpa using hacc, st, hls, by simpa using hreg, by omega⟩
                · exact ih (plat :: plats) pv hm

lemma parseLoop_nodup (o : FsInfo) (tp pfx : Str) (defT : Bool) :
    ∀ (items plats : List Str),
    ((parseLoop o tp pfx defT items plats).map Prod.fst).Nodup ∧
    ∀ q ∈ (parseLoop o tp pfx defT items plats).map Prod.fst, q ∉ plats := by
  intro items
  induction items with
  | nil => intro plats; exact ⟨List.nodup_nil, by simp [parseLoop]⟩
  | cons couple rest ih =>
    intro plats
    cases hip : itemPlatVer tp pfx defT couple with
    | none => simp only [parseLoop, hip]; exact ih plats
    | some pr =>
      rcases pr with ⟨plat, ver⟩
      simp only [parseLoop, hip]
      by_cases hmem : plat ∈ plats
      · rw [if_pos hmem]; exact ih plats
      · rw [if_neg hmem]
        by_cases hacc : o.accOk ver = false
        · rw [if_pos hacc]; exact ih plats
        · rw [if_neg hacc]
          cases hls : o.lst ver with
          | none => simp only [hls]; exact ih plats
          | some st =>
            simp only [hls]
            by_cases hreg : st.isReg = false
            · rw [if_pos hreg]; exact ih plats
            · rw [if_neg hreg]
              by_cases hsz : st.size < 500
              · rw [if_pos hsz]; exact ih plats
              · rw [if_neg hsz]
                have hrec := ih (plat :: plats)
                simp only [List.map_cons]
                constructor
                · exact List.nodup_cons.mpr
                    ⟨fun hq => (hrec.2 plat hq) (List.mem_cons_self plat plats),
                     hrec.1⟩
                · intro q hq
                  rcases List.mem_cons.mp hq with he | hm
                  · subst he; exact hmem
                  · exact fun hqp =>
                      (hrec.2 q hm) (List.mem_cons_of_mem plat hqp)

lemma parseLoop_lookup (o : FsInfo) (tp pfx : Str) (defT : Bool) (p : Str) :
    ∀ (items plats : List Str), p ∉ plats →
    alookup p (parseLoop o tp pfx defT items plats) =
      firstAccepted o tp pfx defT items p := by
  intro items
  induction items with
  | nil => intro plats _; rfl
  | cons couple rest ih =>
    intro plats hp
    cases hip : itemPlatVer tp pfx defT couple with
    | none =>
      simp only [parseLoop, hip, firstAccepted, List.filterMap_cons]
      exact ih plats hp
    | some pr =>
      rcases pr with ⟨plat, ver⟩
      simp only [parseLoop, hip]
      have hfa : firstAccepted o tp pfx defT (couple :: rest) p =
          if plat = p ∧ fsPass o ver = true then some ver
          else firstAccepted o tp pfx defT rest p := by
        rw [firstAccepted, List.filterMap_cons]
        simp only [hip]
        by_cases hcase : plat = p ∧ fsPass o ver = true
        · rw [if_pos hcase, if_pos hcase]
          simp
        · rw [if_neg hcase, if_neg hcase]
          rfl
      rw [hfa]
      by_cases hmem : plat ∈ plats
      · rw [if_pos hmem]
        have hpne : ¬ (plat = p ∧ fsPass o ver = true) := by
          rintro ⟨he, -⟩
          exact hp (he ▸ hmem)
        rw [if_neg hpne]
        exact ih plats hp
      · rw [if_neg hmem]
        by_cases hacc : o.accOk ver = false
        · rw [if_pos hacc]
          have hpass : fsPass o ver = false := by
            rw [fsPass, hacc]
            simp
          rw [if_neg (by rw [hpass]; rintro ⟨-, hc⟩; exact absurd hc (by decide))]
          exact ih plats hp
        · rw [if_neg hacc]
          cases hls : o.lst ver with
          | none =>
            simp only [hls]
            have hpass : fsPass o ver = false := by
              rw [fsPass, hls]
              simp
            rw [if_neg (by rw [hpass]; rintro ⟨-, hc⟩; exact absurd hc (by decide))]
            exact ih plats hp
          | some st =>
            simp only [hls]
            by_cases hreg : st.isReg = false
            · rw [if_pos hreg]
              have hpass : fsPass o ver = false := by
                rw [fsPass]
                simp only [hls]
                simp [hreg]
              rw [if_neg (by rw [hpass]; rintro ⟨-, hc⟩; exact absurd hc (by decide))]
              exact ih plats hp
            · rw [if_neg hreg]
              by_cases hsz : st.size < 500
              · rw [if_pos hsz]
                have hpass : fsPass o ver = false := by
                  rw [fsPass]
                  simp only [hls]
                  have hdec : decide (500 ≤ st.size) = false := by
                    simp
                    omega
                  simp [hdec]
                rw [if_neg (by rw [hpass]; rintro ⟨-, hc⟩; exact absurd hc (by decide))]
                exact ih plats hp
              · rw [if_neg hsz]
                have hpass : fsPass o ver = true := by
                  rw [fsPass, hls]
                  have h1 : o.accOk ver = true := by simpa using hacc
                  have h2 : st.isReg = true := by simpa using hreg
                  simp [h1, h2]
                  omega
                by_cases hpp : plat = p
                · subst hpp
                  rw [if_pos ⟨rfl, hpass⟩, alookup, if_pos rfl]
                · rw [if_neg (by rintro ⟨he, -⟩; exact hpp he), alookup,
                    if_neg hpp]
                  exact ih (plat :: plats)
                    (by intro hm
                        rcases List.mem_cons.mp hm with he | hm2
                        · exact hpp he.symm
                        · exact hp hm2)

lemma rip_versionfile (envs : List (Str × Str)) :
    ∀ (acc : List (Str × Str) × (Str → Option Str) × (Str → Option Str)),
    ∀ p vf, (envs.foldl ripStep acc).2.2 p = some vf →
      acc.2.2 p = some vf ∨ ((p, vf) ∈ envs ∧ matchSuffix vf ≠ none) := by
  induction envs with
  | nil => intro acc p vf h; exact Or.inl h
  | cons e rest ih =>
    intro acc p vf h
    rw [List.foldl_cons] at h
    rcases ih (ripStep acc e) p vf h with h1 | h2
    · cases hms : matchSuffix e.2 with
      | none =>
        simp only [ripStep, hms] at h1
        exact Or.inl h1
      | some stripped =>
        simp only [ripStep, hms] at h1
        by_cases hpe : p = e.1
        · rw [if_pos hpe] at h1
          refine Or.inr ⟨?_, ?_⟩
          · have : (p, vf) = e := by
              rcases e with ⟨e1, e2⟩
              simp only at hpe h1 ⊢
              exact Prod.ext hpe (Option.some.inj h1).symm
            rw [this]
            exact List.mem_cons_self e rest
          · rw [← Option.some.inj h1, hms]
            simp
        · rw [if_neg hpe] at h1
          exact Or.inl h1
    · exact Or.inr ⟨List.mem_cons_of_mem e h2.1, h2.2⟩

/-- C8: the catalog built from `$ICECC_VERSION` only keeps archive entries
that are readable, `lstat` as a regular file, and are at least 500 bytes;
every path recorded by `rip_out_paths` carries one of the recognised
archive suffixes; the accepted platforms are pairwise distinct; and each
platform is mapped to the version of the first item in the raw string that
resolves to this platform and passes the filesystem checks (the first
accepted entry wins, later duplicates are discarded). -/
theorem icecc_version_catalog (o : FsInfo) (raw tp pfx : Str) :
    (∀ pv ∈ parse_icecc_version o raw tp pfx,
      o.accOk pv.2 = true ∧
      ∃ st, o.lst pv.2 = some st ∧ st.isReg = true ∧ 500 ≤ st.size) ∧
    ((parse_icecc_version o raw tp pfx).map Prod.fst).Nodup ∧
    (∀ p vf, (rip_out_paths (parse_icecc_version o raw tp pfx)).2.2 p = some vf →
      (p, vf) ∈ parse_icecc_version o raw tp pfx ∧ matchSuffix vf ≠ none) ∧
    (∀ p, alookup p (parse_icecc_version o raw tp pfx) =
      firstAccepted o tp pfx (raw.any (fun c => c = '=')) (tokSplit raw) p) := by
  refine ⟨?_, ?_, ?_, ?_⟩
  · exact fun pv h =>
      parseLoop_checks o tp pfx (raw.any (fun c => c = '=')) (tokSplit raw) [] pv h
  · exact (parseLoop_nodup o tp pfx (raw.any (fun c => c = '=')) (tokSplit raw) []).1
  · intro p vf h
    rcases rip_versionfile (parse_icecc_version o raw tp pfx)
        ([], fun _ => none, fun _ => none) p vf h with h1 | h2
    · exact Option.noConfusion h1
    · exact h2
  · intro p
    exact parseLoop_lookup o tp pfx (raw.any (fun c => c = '=')) p (tokSplit raw) []
      (List.not_mem_nil p)

theorem icecc_version_catalog_witness :
    ((⟨fun _ => true, fun _ => some ⟨true, 600⟩⟩ : FsInfo).accOk
        ("/tmp/a.tar.gz".toList) = true ∧
      ∃ st, (⟨fun _ => true, fun _ => some ⟨true, 600⟩⟩ : FsInfo).lst
          ("/tmp/a.tar.gz".toList) = some st ∧ st.isReg = true ∧ 500 ≤ st.size) ∧
    ((parse_icecc_version ⟨fun _ => true, fun _ => some ⟨true, 600⟩⟩
        ("i386:/tmp/a.tar.gz,i386:/tmp/b.tar.gz,x86:/tmp/c.tar.bz2".toList)
        ("x86_64".toList) []).map Prod.fst).Nodup ∧
    ((("i386".toList, "/tmp/a.tar.gz".toList) : Str × Str) ∈
      parse_icecc_version ⟨fun _ => true, fun _ => some ⟨true, 600⟩⟩
        ("i386:/tmp/a.tar.gz,i386:/tmp/b.tar.gz,x86:/tmp/c.tar.bz2".toList)
        ("x86_64".toList) [] ∧
      matchSuffix ("/tmp/a.tar.gz".toList) ≠ none) ∧
    alookup ("i386".toList)
      (parse_icecc_version ⟨fun _ => true, fun _ => some ⟨true, 600⟩⟩
        ("i386:/tmp/a.tar.gz,i386:/tmp/b.tar.gz,x86:/tmp/c.tar.bz2".toList)
        ("x86_64".toList) []) =
    firstAccepted ⟨fun _ => true, fun _ => some ⟨true, 600⟩⟩ ("x86_64".toList) []
      (("i386:/tmp/a.tar.gz,i386:/tmp/b.tar.gz,x86:/tmp/c.tar.bz2".toList).any
        (fun c => c = '='))
      (tokSplit ("i386:/tmp/a.tar.gz,i386:/tmp/b.tar.gz,x86:/tmp/c.tar.bz2".toList))
      ("i386".toList) :=
  ⟨(icecc_version_catalog ⟨fun _ => true, fun _ => some ⟨true, 600⟩⟩
      ("i386:/tmp/a.tar.gz,i386:/tmp/b.tar.gz,x86:/tmp/c.tar.bz2".toList)
      ("x86_64".toList) []).1 ("i386".toList, "/tmp/a.tar.gz".toList) (by decide),
   (icecc_version_catalog ⟨fun _ => true, fun _ => some ⟨true, 600⟩⟩
      ("i386:/tmp/a.tar.gz,i386:/tmp/b.tar.gz,x86:/tmp/c.tar.bz2".toList)
      ("x86_64".toList) []).2.1,
   (icecc_version_catalog ⟨fun _ => true, fun _ => some ⟨true, 600⟩⟩
      ("i386:/tmp/a.tar.gz,i386:/tmp/b.tar.gz,x86:/tmp/c.tar.bz2".toList)
      ("x86_64".toList) []).2.2.1 ("i386".toList) ("/tmp/a.tar.gz".toList)
      (by decide),
   (icecc_version_catalog ⟨fun _ => true, fun _ => some ⟨true, 600⟩⟩
      ("i386:/tmp/a.tar.gz,i386:/tmp/b.tar.gz,x86:/tmp/c.tar.bz2".toList)
      ("x86_64".toList) []).2.2.2 ("i386".toList)⟩
